import Mathlib

/-!
# Verification of the pitrac-light ball-detection and spin-estimation core

Shallow embedding of the detection facade, Hough post-processing, colour
filter, single-class NMS and spin-analysis routines of the repository,
together with proofs settling the specification claims about them.

Conventions of the embedding:
* OpenCV floating-point quantities are modelled as rationals (`ℚ`);
  machine integers as `Int`/`Nat` (all values involved stay far from any
  overflow boundary, and the C++ arithmetic in the modelled regions is exact).
* `std::round` is half-away-from-zero rounding, modelled by `roundQ`.
* C++ `int` division truncates towards zero, modelled by `Int.tdiv`.
-/

namespace GolfSim

/-- `std::round` on a rational: round half away from zero, to an integer. -/
def roundQ (q : ℚ) : ℤ :=
  if 0 ≤ q then ⌊q + 1/2⌋ else ⌈q - 1/2⌉

/-- C++ integer division (truncation towards zero). -/
def cppDiv (a b : ℤ) : ℤ := a.tdiv b

/-! ## Spin-analysis rotation search space (spin_analyzer.cpp)

`SpinAnalyzer::ComputeCandidateAngleImages` (spin_analyzer.cpp:823-892) sizes
each axis of the candidate matrix as

    int xSize = (int)std::ceil((end - start) / increment) + 1;

where `end`, `start`, `increment` are all `int`, so the division inside the
`std::ceil` is already C++ integer (truncating) division and the `ceil` is
the identity on its integer-valued argument.  The generation loop is

    for (int a = start; a <= end; a += increment) { ... }
-/

/-- Axis dimension of the candidate matrix, as computed at
spin_analyzer.cpp:844-846: `(int)std::ceil((end - start) / inc) + 1` with the
division being C++ integer division (so `std::ceil` is the identity). -/
def candidateMatAxisSize (start stop inc : ℤ) : ℤ :=
  cppDiv (stop - start) inc + 1

/-- Number of iterations of one axis loop
`for (a = start; a <= end; a += inc)` of
`ComputeCandidateAngleImages` (spin_analyzer.cpp:861-863).
For `inc ≤ 0` the C++ loop would not terminate (or run zero times);
the embedding returns 0 in that degenerate case, which no claim exercises. -/
def axisIterCount (start stop inc : ℤ) : ℕ :=
  if inc ≤ 0 ∨ stop < start then 0
  else 1 + axisIterCount (start + inc) stop inc
termination_by (stop - start + 1).toNat
decreasing_by
  rename_i h
  push_neg at h
  obtain ⟨h1, h2⟩ := h
  omega

theorem axisIterCount_eq (start stop inc : ℤ) (hinc : 0 < inc) (hle : start ≤ stop) :
    axisIterCount start stop inc = (stop - start).toNat / inc.toNat + 1 := by
  generalize hd : (stop - start).toNat = d
  induction d using Nat.strong_induction_on generalizing start with
  | _ d ih =>
    unfold axisIterCount
    have hni : ¬ (inc ≤ 0 ∨ stop < start) := by push_neg; exact ⟨hinc, hle⟩
    rw [if_neg hni]
    by_cases hnext : start + inc ≤ stop
    · have hd' : (stop - (start + inc)).toNat = d - inc.toNat := by omega
      have hlt : d - inc.toNat < d := by omega
      rw [ih (d - inc.toNat) hlt (start + inc) hnext hd']
      have hdiv : d / inc.toNat = (d - inc.toNat) / inc.toNat + 1 := by
        rw [Nat.div_eq_sub_div (by omega) (by omega)]
      omega
    · have hz : axisIterCount (start + inc) stop inc = 0 := by
        unfold axisIterCount
        rw [if_pos]; right; omega
      rw [hz]
      have : d / inc.toNat = 0 := Nat.div_eq_of_lt (by omega)
      omega

/-- For nonnegative spans, the C++ truncating division agrees with `ℕ` division. -/
theorem cppDiv_toNat (a b : ℤ) (ha : 0 ≤ a) (hb : 0 < b) :
    cppDiv a b = (a.toNat / b.toNat : ℕ) := by
  unfold cppDiv
  rcases Int.eq_ofNat_of_zero_le ha with ⟨m, rfl⟩
  rcases Int.eq_ofNat_of_zero_le hb.le with ⟨n, rfl⟩
  simp [Int.tdiv]


/-- C9 (amended): for each axis of the rotation search space with integer
`start ≤ end` and increment `inc > 0`, the number of candidate rotations
generated along that axis and the corresponding dimension of the candidate
index matrix both equal `⌊(end − start)/inc⌋ + 1` (C++ truncating integer
division) — not `⌈(end − start)/inc⌉ + 1`, the two differing exactly when
`inc` does not divide `end − start`. -/
theorem axisCandidateCount_correct (start stop inc : ℤ)
    (hinc : 0 < inc) (hle : start ≤ stop) :
    (axisIterCount start stop inc : ℤ) = candidateMatAxisSize start stop inc ∧
    candidateMatAxisSize start stop inc = cppDiv (stop - start) inc + 1 := by
  constructor
  · rw [axisIterCount_eq start stop inc hinc hle]
    unfold candidateMatAxisSize
    rw [cppDiv_toNat (stop - start) inc (by omega) hinc]
    push_cast
    ring
  · rfl

/-- Witness for `axisCandidateCount_correct` at the concrete axis
(start, end, inc) = (-30, 30, 5), the default coarse Y axis. -/
theorem axisCandidateCount_correct_witness :
    (0 : ℤ) < 5 ∧ (-30 : ℤ) ≤ 30 ∧
    (axisIterCount (-30) 30 5 : ℤ) = candidateMatAxisSize (-30) 30 5 := by
  refine ⟨by norm_num, by norm_num, (axisCandidateCount_correct (-30) 30 5 (by norm_num) (by norm_num)).1⟩

/-- C9 counterexample: on the axis (start, end, inc) = (0, 5, 2) the loop
generates 3 candidate rotations and the matrix dimension is 3, while the
claimed formula `⌈(end − start)/inc⌉ + 1` gives 4. -/
theorem axisCandidateCount_ceil_counterexample :
    axisIterCount 0 5 2 = 3 ∧ candidateMatAxisSize 0 5 2 = 3 ∧
    (⌈(((5 : ℚ) - 0) / 2)⌉ + 1 : ℤ) ≠ 3 := by
  refine ⟨?_, by decide, ?_⟩
  · have h := axisIterCount_eq 0 5 2 (by norm_num) (by norm_num)
    simpa using h
  · have h : (⌈(((5 : ℚ) - 0) / 2)⌉ : ℤ) = 3 := by
      rw [Int.ceil_eq_iff] <;> norm_num
    omega


/-! ## Colour filter (ball_detection/color_filter.cpp)

`ColorFilter::GetColorMaskImage(hsvImage, input_lowerHsv, input_upperHsv,
wideningAmount)` (color_filter.cpp:16-92).  The embedding is per pixel: the
value the returned `CV_8U` mask holds at a pixel whose HSV triplet is given.
Colour triplets are `cv::Vec3f` holding 8-bit image data widened by the
integer constant 35, so all arithmetic involved is exact over `ℤ`. -/

/-- A colour triplet (HSV here); `cv::Vec3f` data of 8-bit origin. -/
structure GsColorTriplet where
  hh : ℤ
  ss : ℤ
  vv : ℤ
deriving DecidableEq, Repr

/-- color_filter.cpp:13: `kColorMaskWideningAmount = 35`. -/
def kColorMaskWideningAmount : ℤ := 35

/-- Modelled from the spec: `CvUtils::kOpenCvHueMax` lives outside `src/`;
the spec fixes the OpenCV hue range as `[0, 180)`, so the maximum is 180. -/
def kOpenCvHueMax : ℤ := 180

/-- `cv::inRange` at one pixel: 255 iff every channel lies inside the
closed per-channel bounds, else 0 (here as the Boolean condition). -/
def inRangePix (p lo hi : GsColorTriplet) : Bool :=
  decide (lo.hh ≤ p.hh ∧ p.hh ≤ hi.hh) &&
  decide (lo.ss ≤ p.ss ∧ p.ss ≤ hi.ss) &&
  decide (lo.vv ≤ p.vv ∧ p.vv ≤ hi.vv)

/-- Per-pixel embedding of `ColorFilter::GetColorMaskImage`
(color_filter.cpp:16-92).  Faithful to the source: the widening applied is
the constant `kColorMaskWideningAmount` (lines 26-29); the `wideningAmount`
argument is never read. -/
def getColorMaskPixel (hsvPixel input_lowerHsv input_upperHsv : GsColorTriplet)
    (wideningAmount : ℚ) : ℤ :=
  let lowerHsv : GsColorTriplet :=
    ⟨input_lowerHsv.hh - kColorMaskWideningAmount,
     input_lowerHsv.ss - kColorMaskWideningAmount,
     input_lowerHsv.vv - kColorMaskWideningAmount⟩
  let upperHsvRaw : GsColorTriplet :=
    ⟨input_upperHsv.hh + kColorMaskWideningAmount,
     input_upperHsv.ss + kColorMaskWideningAmount,
     input_upperHsv.vv + kColorMaskWideningAmount⟩
  -- lines 33-34: clamp the upper S and V bounds to 255
  let upperHsv : GsColorTriplet :=
    ⟨upperHsvRaw.hh, min upperHsvRaw.ss 255, min upperHsvRaw.vv 255⟩
  if 0 ≤ lowerHsv.hh ∧ upperHsv.hh ≤ kOpenCvHueMax then
    -- line 44: single inRange mask
    if inRangePix hsvPixel lowerHsv upperHsv then 255 else 0
  else
    -- lines 59-87: hue range crosses the 180-degree loop point;
    -- the mask is the bitwise OR of two sub-range masks
    let wrapLow : Bool := lowerHsv.hh < 0
    let leftMostLowerHsv : GsColorTriplet := ⟨0, lowerHsv.ss, lowerHsv.vv⟩
    let leftMostUpperHsv : GsColorTriplet :=
      if wrapLow then ⟨upperHsv.hh, upperHsv.ss, upperHsv.vv⟩
      else ⟨upperHsv.hh - 180, upperHsv.ss, upperHsv.vv⟩
    let rightMostLowerHsv : GsColorTriplet :=
      if wrapLow then ⟨kOpenCvHueMax + lowerHsv.hh, lowerHsv.ss, lowerHsv.vv⟩
      else ⟨lowerHsv.hh, lowerHsv.ss, lowerHsv.vv⟩
    let rightMostUpperHsv : GsColorTriplet := ⟨kOpenCvHueMax, upperHsv.ss, upperHsv.vv⟩
    if inRangePix hsvPixel leftMostLowerHsv leftMostUpperHsv ||
       inRangePix hsvPixel rightMostLowerHsv rightMostUpperHsv then 255 else 0

/-- Whole-image form of the colour mask (one mask value per pixel). -/
def getColorMaskImage (hsvImage : List (List GsColorTriplet))
    (lo hi : GsColorTriplet) (w : ℚ) : List (List ℤ) :=
  hsvImage.map (fun row => row.map (fun p => getColorMaskPixel p lo hi w))

/-- The claim's mask membership, from the spec's words (for comparison with
the source embedding): the pixel's HSV lies within
`[lower − widening, upper + widening]`, with the widened upper S and V
bounds clamped to 255.  Over ℚ, since the widening argument is real. -/
def specColorMaskPredicate (p lo hi : GsColorTriplet) (w : ℚ) : Prop :=
  ((lo.hh : ℚ) - w ≤ p.hh ∧ (p.hh : ℚ) ≤ hi.hh + w) ∧
  ((lo.ss : ℚ) - w ≤ p.ss ∧ (p.ss : ℚ) ≤ min ((hi.ss : ℚ) + w) 255) ∧
  ((lo.vv : ℚ) - w ≤ p.vv ∧ (p.vv : ℚ) ≤ min ((hi.vv : ℚ) + w) 255)

instance (p lo hi : GsColorTriplet) (w : ℚ) :
    Decidable (specColorMaskPredicate p lo hi w) := by
  unfold specColorMaskPredicate; infer_instance

/-- C4 counterexample: with `lower = (50,100,100)`, `upper = (60,200,200)`
and widening argument 0, the pixel `(40,90,90)` lies outside
`[lower − 0, upper + 0]`, yet the mask is 255 there (the source widens by
the constant 35 and ignores the widening argument). -/
theorem getColorMask_widening_counterexample :
    getColorMaskPixel ⟨40, 90, 90⟩ ⟨50, 100, 100⟩ ⟨60, 200, 200⟩ 0 = 255 ∧
    ¬ specColorMaskPredicate ⟨40, 90, 90⟩ ⟨50, 100, 100⟩ ⟨60, 200, 200⟩ 0 := by
  constructor
  · decide
  · intro hsp
    have := hsp.1.1
    norm_num at this

/-- C4 (amended): for every HSV pixel, bounds and widening argument, as long
as the hue range widened by 35 does not wrap (`lower.h ≥ 35`,
`upper.h ≤ 145`), the mask value is binary and is 255 exactly at pixels
whose HSV lies within `[lower − 35, upper + 35]` (with the widened upper S
and V bounds clamped to 255); the widening argument itself is ignored, the
widening being the fixed constant 35. -/
theorem getColorMask_widens_by_35 (p lo hi : GsColorTriplet) (w : ℚ)
    (hlo : 35 ≤ lo.hh) (hhi : hi.hh ≤ 145) :
    (getColorMaskPixel p lo hi w = 255 ∨ getColorMaskPixel p lo hi w = 0) ∧
    (getColorMaskPixel p lo hi w = 255 ↔ specColorMaskPredicate p lo hi 35) := by
  have hcond : 0 ≤ lo.hh - kColorMaskWideningAmount ∧
      hi.hh + kColorMaskWideningAmount ≤ kOpenCvHueMax := by
    unfold kColorMaskWideningAmount kOpenCvHueMax; omega
  have hspec : specColorMaskPredicate p lo hi 35 ↔
      ((lo.hh - 35 ≤ p.hh ∧ p.hh ≤ hi.hh + 35) ∧
       (lo.ss - 35 ≤ p.ss ∧ p.ss ≤ min (hi.ss + 35) 255) ∧
       (lo.vv - 35 ≤ p.vv ∧ p.vv ≤ min (hi.vv + 35) 255)) := by
    unfold specColorMaskPredicate
    constructor
    · rintro ⟨⟨a1, a2⟩, ⟨b1, b2⟩, ⟨c1, c2⟩⟩
      refine ⟨⟨?_, ?_⟩, ⟨?_, ?_⟩, ⟨?_, ?_⟩⟩ <;> assumption_mod_cast
    · rintro ⟨⟨a1, a2⟩, ⟨b1, b2⟩, ⟨c1, c2⟩⟩
      refine ⟨⟨?_, ?_⟩, ⟨?_, ?_⟩, ⟨?_, ?_⟩⟩ <;> assumption_mod_cast
  constructor
  · unfold getColorMaskPixel
    simp only [if_pos hcond]
    split
    · left; rfl
    · right; rfl
  · rw [hspec]
    unfold getColorMaskPixel
    simp only [if_pos hcond]
    unfold inRangePix kColorMaskWideningAmount
    simp only [Bool.and_eq_true, decide_eq_true_eq]
    split
    next hb =>
      exact iff_of_true rfl (by tauto)
    next hb =>
      exact iff_of_false (by norm_num) (fun hr => hb (by tauto))

/-- Witness for `getColorMask_widens_by_35` at a concrete pixel and bounds. -/
theorem getColorMask_widens_by_35_witness :
    (35 : ℤ) ≤ 50 ∧ (60 : ℤ) ≤ 145 ∧
    getColorMaskPixel ⟨40, 90, 90⟩ ⟨50, 100, 100⟩ ⟨60, 200, 200⟩ 7 = 255 ∧
    specColorMaskPredicate ⟨40, 90, 90⟩ ⟨50, 100, 100⟩ ⟨60, 200, 200⟩ 35 :=
  ⟨by decide, by decide, by decide,
   (getColorMask_widens_by_35 ⟨40, 90, 90⟩ ⟨50, 100, 100⟩ ⟨60, 200, 200⟩ 7
     (by decide) (by decide)).2.mp (by decide)⟩

/-! ## Spin estimation: failure semantics of GetBallRotation
(ball_detection/spin_analyzer.cpp:896-1167)

`GetBallRotation` runs a coarse candidate search; if its best index is
negative it returns the default-constructed `(0,0,0)` with a warning
(lines 1032-1037).  Otherwise a fine search is built around the coarse
winner; `best_rot_x/y/z` start at 0 (lines 1094-1096) and are overwritten
only when the fine pass finds a winner (lines 1098-1102).  The result is
always normalised from `best_rot_*` (lines 1128-1135) and the X component
negated (line 1160).  The embedding takes the two search outcomes and the
(real-valued) trigonometric factors of the perspective offset as inputs:
the claim is about the branch structure, which does not depend on them. -/

/-- An integer rotation triple (degrees). -/
structure RotVec where
  x : ℤ
  y : ℤ
  z : ℤ
deriving DecidableEq, Repr

/-- The output normalisation of spin_analyzer.cpp:1128-1133: note that the
Z component is assembled from three separately rounded terms. -/
def spinNormalize (best_rot : RotVec) (cosX sinX cosY sinY : ℚ) : RotVec :=
  ⟨roundQ ((best_rot.x : ℚ) * cosY + (best_rot.z : ℚ) * sinY),
   roundQ ((best_rot.y : ℚ) * cosX - (best_rot.z : ℚ) * sinX),
   roundQ ((best_rot.z : ℚ) * cosX * cosY) - roundQ ((best_rot.y : ℚ) * sinX) -
     roundQ ((best_rot.x : ℚ) * sinY)⟩

/-- Result of `GetBallRotation` as a function of the coarse and fine search
outcomes (spin_analyzer.cpp:1032-1166).  `none` = the corresponding
`CompareCandidateAngleImages` returned a negative best index. -/
def getBallRotationResult (coarse fine : Option RotVec)
    (cosX sinX cosY sinY : ℚ) : RotVec :=
  match coarse with
  | none => ⟨0, 0, 0⟩          -- lines 1034-1037: early return, default (0,0,0)
  | some _ =>
    let best_rot : RotVec :=
      match fine with
      | some f => f            -- lines 1098-1102
      | none => ⟨0, 0, 0⟩      -- lines 1094-1096 and 1112-1115
    let n := spinNormalize best_rot cosX sinX cosY sinY
    ⟨-n.x, n.y, n.z⟩           -- lines 1128-1135 and 1160

/-- C3 counterexample: with a coarse winner `(6,5,6)` and a failed fine pass
(zero perspective offset, so `cos = 1`, `sin = 0`), `GetBallRotation`
returns `(0,0,0)` — not the normalisation of the coarse winner, which would
be `(-6,5,6)`.  The coarse result does not stand. -/
theorem getBallRotation_fine_failure_counterexample :
    getBallRotationResult (some ⟨6, 5, 6⟩) none 1 0 1 0 = ⟨0, 0, 0⟩ ∧
    (let n := spinNormalize ⟨6, 5, 6⟩ 1 0 1 0
     RotVec.mk (-n.x) n.y n.z = ⟨-6, 5, 6⟩ ∧ RotVec.mk (-n.x) n.y n.z ≠ ⟨0, 0, 0⟩) := by
  have hn : spinNormalize ⟨6, 5, 6⟩ 1 0 1 0 = ⟨6, 5, 6⟩ := by
    unfold spinNormalize
    norm_num [roundQ]
  refine ⟨?_, ?_, ?_⟩
  · unfold getBallRotationResult
    norm_num [spinNormalize, roundQ]
  · rw [hn]
  · rw [hn]; decide

/-- C3 (amended): `GetBallRotation` returns `(0,0,0)` when the coarse pass
produces no winner; when the coarse pass has a winner but the fine pass
fails, it likewise returns `(0,0,0)` (the coarse winner is used only to
centre the fine search space, not in the returned value); only a fine
winner `f` yields the normalised, X-negated rotation derived from `f`. -/
theorem getBallRotation_failure_semantics (fine : Option RotVec) (c f : RotVec)
    (cosX sinX cosY sinY : ℚ) :
    getBallRotationResult none fine cosX sinX cosY sinY = ⟨0, 0, 0⟩ ∧
    getBallRotationResult (some c) none cosX sinX cosY sinY = ⟨0, 0, 0⟩ ∧
    getBallRotationResult (some c) (some f) cosX sinX cosY sinY =
      ⟨-(spinNormalize f cosX sinX cosY sinY).x,
       (spinNormalize f cosX sinX cosY sinY).y,
       (spinNormalize f cosX sinX cosY sinY).z⟩ := by
  refine ⟨rfl, ?_, rfl⟩
  show RotVec.mk _ _ _ = _
  have h0 : roundQ 0 = 0 := by
    unfold roundQ
    rw [if_pos le_rfl]
    norm_num
  simp only [getBallRotationResult, spinNormalize]
  push_cast
  simp only [zero_mul, mul_zero, zero_add, zero_sub, sub_zero, add_zero, neg_zero, h0]

/-! ## Spin sentinel purity (ball_detection/spin_analyzer.cpp)

The dimple pipeline: `ApplyTestGaborFilter` thresholds the Gabor response
with `cv::threshold(…, THRESH_BINARY)` using `maxval = 255`
(spin_analyzer.cpp:409-411); `RemoveReflections` overwrites pixels selected
by the dilated bright-reflection mask with the ignore sentinel
(spin_analyzer.cpp:166-174); `MaskAreaOutsideBall` keeps the pixel inside
the drawn disc — via `bitwise_and` with a disc of 255s followed by
`bitwise_xor` with a canvas holding the mask value outside the disc — and
paints the mask value outside (spin_analyzer.cpp:262-280);
`Project2dImageTo3dBall` initialises a 2-channel destination with value
channel `kPixelIgnoreValue` and for each source pixel writes either the
sentinel (invalid pre-rotation z) or the source value at a
geometry-determined destination (spin_analyzer.cpp:471-537, 571-603);
`CompareRotationImage` counts matched/examined pairs, skipping any pair in
which either side holds the sentinel (spin_analyzer.cpp:789-819).

Images are grids of 8-bit values (`List (List ℕ)`); the floating-point
rotation geometry of the projection enters only as the (arbitrary)
destination map and pre-rotation validity predicate — the claim's value-set
invariants hold for every geometry. -/

/-- spin_analyzer.cpp:38: sentinel value for "do not compare" pixels. -/
def kPixelIgnoreValue : ℕ := 128

/-- One pixel of `cv::threshold(…, thresh, maxval, cv::THRESH_BINARY)`. -/
def thresholdBinaryPixel (thresh maxval v : ℕ) : ℕ :=
  if thresh < v then maxval else 0

/-- The thresholding of the quantised Gabor response
(spin_analyzer.cpp:409-411); the source passes `maxval = 255`. -/
def thresholdBinary (thresh maxval : ℕ) (img : List (List ℕ)) : List (List ℕ) :=
  img.map (fun row => row.map (thresholdBinaryPixel thresh maxval))

/-- The write-back loop of `RemoveReflections` (spin_analyzer.cpp:166-174):
pixels under the dilated reflection mask are overwritten with the sentinel. -/
def removeReflectionsWrite (morph : List (List Bool)) (filtered : List (List ℕ)) :
    List (List ℕ) :=
  List.zipWith (fun mrow frow =>
    List.zipWith (fun m v => if m then kPixelIgnoreValue else v) mrow frow) morph filtered

/-- One pixel of `MaskAreaOutsideBall` (spin_analyzer.cpp:262-280): the AND
with the 255-disc then XOR with the (maskValue outside / 0 inside) canvas. -/
def maskAreaOutsideBallPixel (inside : Bool) (maskValue v : ℕ) : ℕ :=
  (v.land (if inside then 255 else 0)).xor (if inside then 0 else maskValue)

/-- `MaskAreaOutsideBall` over the grid; `inside` is the rasterised disc of
radius `mask_reduction_factor · r` (geometry abstracted). -/
def maskAreaOutsideBall (inside : ℕ → ℕ → Bool) (maskValue : ℕ)
    (img : List (List ℕ)) : List (List ℕ) :=
  img.mapIdx (fun x row => row.mapIdx (fun y v =>
    maskAreaOutsideBallPixel (inside x y) maskValue v))

/-- Write one value into a grid (no-op out of range, like a guarded write). -/
def gridWrite (g : List (List ℕ)) (x y v : ℕ) : List (List ℕ) :=
  g.set x ((g.getD x []).set y v)

/-- Pixels of a grid together with their coordinates. -/
def enumPixels (img : List (List ℕ)) : List (ℕ × ℕ × ℕ) :=
  (img.mapIdx (fun x row => row.mapIdx (fun y v => (x, y, v)))).flatten

/-- Value channel of `Project2dImageTo3dBall` (spin_analyzer.cpp:571-603 with
the per-pixel `projectionOp` of lines 471-537).  The destination starts as
`cv::Scalar(0, kPixelIgnoreValue)` — value channel all sentinel.  For each
source pixel `(x, y, v)`: if the pre-rotation z is not valid the sentinel is
written at `(x, y)` (lines 482-485); independently, if the rotated point
lands in bounds with positive z — `dst x y = some (rx, ry)` — the value
`prerotatedPointNotValid ? sentinel : v` is written there (lines 525-536). -/
def projectStep (prerotValid : ℕ → ℕ → Bool) (dst : ℕ → ℕ → Option (ℕ × ℕ))
    (g : List (List ℕ)) (xyv : ℕ × ℕ × ℕ) : List (List ℕ) :=
  let x := xyv.1
  let y := xyv.2.1
  let v := xyv.2.2
  -- lines 482-485: invalid pre-rotation z records the sentinel at (x, y)
  let g1 := if prerotValid x y then g else gridWrite g x y kPixelIgnoreValue
  -- lines 525-536: in-bounds positive-z rotated point gets the value write
  match dst x y with
  | some (rx, ry) =>
      gridWrite g1 rx ry (if prerotValid x y then v else kPixelIgnoreValue)
  | none => g1

def projectValueChannel (src : List (List ℕ)) (prerotValid : ℕ → ℕ → Bool)
    (dst : ℕ → ℕ → Option (ℕ × ℕ)) (rows cols : ℕ) : List (List ℕ) :=
  (enumPixels src).foldl (projectStep prerotValid dst)
    (List.replicate rows (List.replicate cols kPixelIgnoreValue))

/-- The aligned pixel pairs of two grids (the double loop of
`CompareRotationImage` visits exactly these, in some order). -/
def pixelPairs (img1 img2 : List (List ℕ)) : List (ℕ × ℕ) :=
  (List.zipWith (fun r1 r2 => List.zipWith (fun a b => (a, b)) r1 r2) img1 img2).flatten

/-- `CompareRotationImage` (spin_analyzer.cpp:789-819): fold the pair of
counters (`score`, `totalPixelsExamined`) over the pixel pairs; a pair is
examined only when neither side is the sentinel, and scored when
additionally equal. -/
def compareRotationImage (img1 img2 : List (List ℕ)) : ℕ × ℕ :=
  (pixelPairs img1 img2).foldl (fun acc pq =>
    if pq.1 ≠ kPixelIgnoreValue ∧ pq.2 ≠ kPixelIgnoreValue then
      (if pq.1 = pq.2 then (acc.1 + 1, acc.2 + 1) else (acc.1, acc.2 + 1))
    else acc) (0, 0)

/-- Membership in a `zipWith` comes from members of the two lists. -/
theorem mem_zipWith_helper {α β γ : Type} (f : α → β → γ) :
    ∀ (l1 : List α) (l2 : List β) (c : γ), c ∈ List.zipWith f l1 l2 →
      ∃ a ∈ l1, ∃ b ∈ l2, c = f a b := by
  intro l1
  induction l1 with
  | nil => intro l2 c hc; simp at hc
  | cons a t ih =>
    intro l2 c hc
    cases l2 with
    | nil => simp at hc
    | cons b t2 =>
      simp only [List.zipWith_cons_cons, List.mem_cons] at hc
      rcases hc with rfl | hc
      · exact ⟨a, by simp, b, by simp, rfl⟩
      · obtain ⟨a', ha', b', hb', rfl⟩ := ih t2 c hc
        exact ⟨a', by simp [ha'], b', by simp [hb'], rfl⟩

/-- Values in a written grid are old values or the written value. -/
theorem gridWrite_mem {g : List (List ℕ)} {x y v u : ℕ} {row : List ℕ}
    (h : row ∈ gridWrite g x y v) (hu : u ∈ row) :
    (∃ r ∈ g, u ∈ r) ∨ u = v := by
  unfold gridWrite at h
  rcases List.mem_or_eq_of_mem_set h with hrow | rfl
  · exact Or.inl ⟨row, hrow, hu⟩
  · rcases List.mem_or_eq_of_mem_set hu with hu' | rfl
    · by_cases hx : x < g.length
      · rw [List.getD_eq_getElem _ _ hx] at hu'
        exact Or.inl ⟨g[x], List.getElem_mem hx, hu'⟩
      · rw [List.getD_eq_default _ _ (le_of_not_lt hx)] at hu'
        simp at hu'
    · exact Or.inr rfl

/-- A single grid write preserves any pixel predicate satisfied by the
written value. -/
theorem gridWrite_inv (P : ℕ → Prop) {g : List (List ℕ)} {x y v : ℕ}
    (hg : ∀ r ∈ g, ∀ w ∈ r, P w) (hv : P v) :
    ∀ r ∈ gridWrite g x y v, ∀ w ∈ r, P w := by
  intro r hr w hw
  rcases gridWrite_mem hr hw with ⟨rr, hrr, hwrr⟩ | rfl
  · exact hg rr hrr w hwrr
  · exact hv

/-- Every value of a source grid pixel enumerated by `enumPixels` is a value
of the source grid. -/
theorem enumPixels_value_mem (img : List (List ℕ)) :
    ∀ p ∈ enumPixels img, ∃ r ∈ img, p.2.2 ∈ r := by
  intro p hp
  unfold enumPixels at hp
  rw [List.mem_flatten] at hp
  obtain ⟨l, hl, hpl⟩ := hp
  rw [List.mem_mapIdx] at hl
  obtain ⟨x, hx, rfl⟩ := hl
  rw [List.mem_mapIdx] at hpl
  obtain ⟨y, hy, rfl⟩ := hpl
  exact ⟨img[x], List.getElem_mem hx, by simp [List.getElem_mem hy]⟩

/-- One projection step preserves a pixel predicate that holds of the
written source value and the sentinel. -/
theorem projectStep_inv (P : ℕ → Prop) (hsent : P kPixelIgnoreValue)
    (prerotValid : ℕ → ℕ → Bool) (dst : ℕ → ℕ → Option (ℕ × ℕ))
    {g : List (List ℕ)} {xyv : ℕ × ℕ × ℕ}
    (hg : ∀ r ∈ g, ∀ w ∈ r, P w) (hv : P xyv.2.2) :
    ∀ r ∈ projectStep prerotValid dst g xyv, ∀ w ∈ r, P w := by
  unfold projectStep
  have hg1 : ∀ r ∈ (if prerotValid xyv.1 xyv.2.1 then g
      else gridWrite g xyv.1 xyv.2.1 kPixelIgnoreValue), ∀ w ∈ r, P w := by
    split
    · exact hg
    · exact gridWrite_inv P hg hsent
  simp only
  split
  · refine gridWrite_inv P hg1 ?_
    split
    · exact hv
    · exact hsent
  · exact hg1

/-- Fold invariant of the projection: if the sentinel and every source value
satisfy `P`, so does every value of the projected value channel. -/
theorem projectValueChannel_inv (P : ℕ → Prop) (hsent : P kPixelIgnoreValue)
    (src : List (List ℕ)) (prerotValid : ℕ → ℕ → Bool)
    (dst : ℕ → ℕ → Option (ℕ × ℕ)) (rows cols : ℕ)
    (hsrc : ∀ r ∈ src, ∀ w ∈ r, P w) :
    ∀ r ∈ projectValueChannel src prerotValid dst rows cols, ∀ w ∈ r, P w := by
  have hfold : ∀ (l : List (ℕ × ℕ × ℕ)) (g : List (List ℕ)),
      (∀ q ∈ l, P q.2.2) → (∀ r ∈ g, ∀ w ∈ r, P w) →
      ∀ r ∈ l.foldl (projectStep prerotValid dst) g, ∀ w ∈ r, P w := by
    intro l
    induction l with
    | nil => intro g _ hg; simpa using hg
    | cons p t ih =>
      intro g hl hg
      simp only [List.foldl_cons]
      exact ih _ (fun q hq => hl q (List.mem_cons_of_mem _ hq))
        (projectStep_inv P hsent prerotValid dst hg (hl p (List.mem_cons_self _ _)))
  refine hfold (enumPixels src) _ ?_ ?_
  · intro q hq
    obtain ⟨r, hr, hw⟩ := enumPixels_value_mem src q hq
    exact hsrc r hr q.2.2 hw
  · intro r hr w hw
    rw [List.eq_of_mem_replicate hr] at hw
    rw [List.eq_of_mem_replicate hw]
    exact hsent

/-- Threshold output values are `maxval` or 0. -/
theorem thresholdBinary_values (t maxval : ℕ) (img : List (List ℕ)) :
    ∀ r ∈ thresholdBinary t maxval img, ∀ v ∈ r, v = maxval ∨ v = 0 := by
  intro r hr v hv
  unfold thresholdBinary at hr
  obtain ⟨row, _, rfl⟩ := List.mem_map.mp hr
  obtain ⟨w, _, rfl⟩ := List.mem_map.mp hv
  unfold thresholdBinaryPixel
  split
  · exact Or.inl rfl
  · exact Or.inr rfl

/-- The reflection write leaves each value either the sentinel or a value of
the input dimple image. -/
theorem removeReflectionsWrite_values (morph : List (List Bool))
    (filtered : List (List ℕ)) :
    ∀ r ∈ removeReflectionsWrite morph filtered, ∀ v ∈ r,
      v = kPixelIgnoreValue ∨ ∃ fr ∈ filtered, v ∈ fr := by
  intro r hr v hv
  unfold removeReflectionsWrite at hr
  obtain ⟨mrow, _, frow, hfrow, rfl⟩ := mem_zipWith_helper _ _ _ _ hr
  obtain ⟨m, _, w, hw, rfl⟩ := mem_zipWith_helper _ _ _ _ hv
  split
  · exact Or.inl rfl
  · exact Or.inr ⟨frow, hfrow, hw⟩

/-- The AND/XOR game of `MaskAreaOutsideBall` with mask value 128 keeps
values in {0, 255, 128}. -/
theorem maskAreaOutsideBallPixel_values (inside : Bool) (v : ℕ)
    (hv : v = 0 ∨ v = 255 ∨ v = kPixelIgnoreValue) :
    maskAreaOutsideBallPixel inside kPixelIgnoreValue v = 0 ∨
    maskAreaOutsideBallPixel inside kPixelIgnoreValue v = 255 ∨
    maskAreaOutsideBallPixel inside kPixelIgnoreValue v = kPixelIgnoreValue := by
  rcases hv with rfl | rfl | rfl <;> cases inside <;> decide

/-- Grid form of the previous lemma. -/
theorem maskAreaOutsideBall_values (inside : ℕ → ℕ → Bool) (img : List (List ℕ))
    (himg : ∀ r ∈ img, ∀ v ∈ r, v = 0 ∨ v = 255 ∨ v = kPixelIgnoreValue) :
    ∀ r ∈ maskAreaOutsideBall inside kPixelIgnoreValue img, ∀ v ∈ r,
      v = 0 ∨ v = 255 ∨ v = kPixelIgnoreValue := by
  intro r hr v hv
  unfold maskAreaOutsideBall at hr
  rw [List.mem_mapIdx] at hr
  obtain ⟨x, hx, rfl⟩ := hr
  rw [List.mem_mapIdx] at hv
  obtain ⟨y, hy, rfl⟩ := hv
  exact maskAreaOutsideBallPixel_values _ _
    (himg img[x] (List.getElem_mem hx) _ (List.getElem_mem hy))

/-- The comparison fold counts exactly the pairs without a sentinel on
either side. -/
theorem compareRotationImage_countP (img1 img2 : List (List ℕ)) :
    compareRotationImage img1 img2 =
      ((pixelPairs img1 img2).countP (fun pq =>
          decide (pq.1 ≠ kPixelIgnoreValue ∧ pq.2 ≠ kPixelIgnoreValue ∧ pq.1 = pq.2)),
       (pixelPairs img1 img2).countP (fun pq =>
          decide (pq.1 ≠ kPixelIgnoreValue ∧ pq.2 ≠ kPixelIgnoreValue))) := by
  unfold compareRotationImage
  have key : ∀ (l : List (ℕ × ℕ)) (a b : ℕ),
      l.foldl (fun acc pq =>
        if pq.1 ≠ kPixelIgnoreValue ∧ pq.2 ≠ kPixelIgnoreValue then
          (if pq.1 = pq.2 then (acc.1 + 1, acc.2 + 1) else (acc.1, acc.2 + 1))
        else acc) (a, b) =
      (a + l.countP (fun pq =>
          decide (pq.1 ≠ kPixelIgnoreValue ∧ pq.2 ≠ kPixelIgnoreValue ∧ pq.1 = pq.2)),
       b + l.countP (fun pq =>
          decide (pq.1 ≠ kPixelIgnoreValue ∧ pq.2 ≠ kPixelIgnoreValue))) := by
    intro l
    induction l with
    | nil => intro a b; simp
    | cons pq t ih =>
      intro a b
      simp only [List.foldl_cons, List.countP_cons]
      by_cases h1 : pq.1 ≠ kPixelIgnoreValue ∧ pq.2 ≠ kPixelIgnoreValue
      · by_cases h2 : pq.1 = pq.2
        · rw [if_pos h1, if_pos h2, ih]
          have e1 : (decide (pq.1 ≠ kPixelIgnoreValue ∧ pq.2 ≠ kPixelIgnoreValue ∧
              pq.1 = pq.2)) = true := by
            simp [h1.1, h1.2, h2]
          have e2 : (decide (pq.1 ≠ kPixelIgnoreValue ∧ pq.2 ≠ kPixelIgnoreValue)) = true := by
            simp [h1.1, h1.2]
          rw [e1, e2]
          simp [Prod.ext_iff]
          omega
        · rw [if_pos h1, if_neg h2, ih]
          have e1 : (decide (pq.1 ≠ kPixelIgnoreValue ∧ pq.2 ≠ kPixelIgnoreValue ∧
              pq.1 = pq.2)) = false := by
            simp [h2]
          have e2 : (decide (pq.1 ≠ kPixelIgnoreValue ∧ pq.2 ≠ kPixelIgnoreValue)) = true := by
            simp [h1.1, h1.2]
          rw [e1, e2]
          simp [Prod.ext_iff]
          omega
      · rw [if_neg h1, ih]
        have e1 : (decide (pq.1 ≠ kPixelIgnoreValue ∧ pq.2 ≠ kPixelIgnoreValue ∧
            pq.1 = pq.2)) = false := by
          simp only [decide_eq_false_iff_not]
          intro hc
          exact h1 ⟨hc.1, hc.2.1⟩
        have e2 : (decide (pq.1 ≠ kPixelIgnoreValue ∧ pq.2 ≠ kPixelIgnoreValue)) = false := by
          simp only [decide_eq_false_iff_not]
          exact h1
        rw [e1, e2]
        simp
  rw [key]
  simp

/-- C8: the thresholded Gabor dimple image holds only values {0, 255};
after the reflection-suppression write, the ball-edge masking with the
sentinel, and the 3-D projection (any reflection mask, disc, geometry and
canvas size), the value channel holds only {0, 255, 128}; and the spin
comparison's matched/examined counters count exactly the pixel pairs in
which neither side holds the sentinel 128 (and of those, the equal ones). -/
theorem spin_sentinel_purity :
    (∀ (t : ℕ) (img : List (List ℕ)),
      ∀ r ∈ thresholdBinary t 255 img, ∀ v ∈ r, v = 0 ∨ v = 255) ∧
    (∀ (t : ℕ) (img : List (List ℕ)) (morph : List (List Bool))
        (inside prerotValid : ℕ → ℕ → Bool)
        (dst : ℕ → ℕ → Option (ℕ × ℕ)) (rows cols : ℕ),
      ∀ r ∈ projectValueChannel
          (maskAreaOutsideBall inside kPixelIgnoreValue
            (removeReflectionsWrite morph (thresholdBinary t 255 img)))
          prerotValid dst rows cols,
        ∀ v ∈ r, v = 0 ∨ v = 255 ∨ v = kPixelIgnoreValue) ∧
    (∀ img1 img2 : List (List ℕ),
      compareRotationImage img1 img2 =
        ((pixelPairs img1 img2).countP (fun pq =>
            decide (pq.1 ≠ kPixelIgnoreValue ∧ pq.2 ≠ kPixelIgnoreValue ∧ pq.1 = pq.2)),
         (pixelPairs img1 img2).countP (fun pq =>
            decide (pq.1 ≠ kPixelIgnoreValue ∧ pq.2 ≠ kPixelIgnoreValue)))) := by
  refine ⟨?_, ?_, compareRotationImage_countP⟩
  · intro t img r hr v hv
    rcases thresholdBinary_values t 255 img r hr v hv with h | h
    · exact Or.inr h
    · exact Or.inl h
  · intro t img morph inside prerotValid dst rows cols
    refine projectValueChannel_inv _ (by right; right; rfl) _ _ _ _ _ ?_
    refine maskAreaOutsideBall_values _ _ ?_
    intro r hr v hv
    rcases removeReflectionsWrite_values morph _ r hr v hv with h | ⟨fr, hfr, hvfr⟩
    · exact Or.inr (Or.inr h)
    · rcases thresholdBinary_values t 255 _ fr hfr v hvfr with h | h
      · exact Or.inr (Or.inl h)
      · exact Or.inl h

/-- Witness for `spin_sentinel_purity` on concrete one- and two-pixel images. -/
theorem spin_sentinel_purity_witness :
    ((255 : ℕ) = 0 ∨ (255 : ℕ) = 255) ∧
    ((128 : ℕ) = 0 ∨ (128 : ℕ) = 255 ∨ (128 : ℕ) = kPixelIgnoreValue) ∧
    compareRotationImage [[0, 128]] [[0, 255]] = (1, 1) := by
  refine ⟨?_, ?_, ?_⟩
  · exact spin_sentinel_purity.1 150 [[100, 200]] [0, 255] (by decide) 255 (by decide)
  · exact spin_sentinel_purity.2.1 150 [[100]] [[false]] (fun _ _ => true)
      (fun _ _ => false) (fun _ _ => none) 1 1 [kPixelIgnoreValue] (by decide)
      128 (by decide)
  · rw [spin_sentinel_purity.2.2 [[0, 128]] [[0, 255]]]
    decide

/-! ## Concentric-circle deduplication (ball_detection/hough_detector.cpp:154-182)

`HoughDetector::RemoveSmallestConcentricCircles` mutates the circle vector
in place with two nested index loops:

    for (int i = 0; i < (int)(circles.size()) - 1; i++)
      for (int j = (int)circles.size() - 1; j > i; j--)
        if (CvUtils::CircleXY(circles[i]) == CvUtils::CircleXY(circles[j])) {
          if ((int)round(circles[j][2]) <= (int)round(circles[i][2]))
            circles.erase(begin + j);
          else { circles.erase(begin + i); i--; break; }
        }

The embedding keeps the exact control structure: `rsccInner` is the inner
loop (structural recursion on the descending index `j`; the returned flag
records whether element `i` itself was erased, i.e. the `break; i--` path),
`rsccOuter` the outer loop. -/

/-- A Hough circle `(x, y, r)` of real-valued (here rational) pixels. -/
structure GsCircle where
  x : ℚ
  y : ℚ
  r : ℚ
deriving DecidableEq, Repr

/-- Modelled from the spec: `CvUtils::CircleXY` lives outside `src/`; per the
spec's data model (and the `CvUtils` unit tests) it is the circle's integer
centre coordinates. -/
def circleXY (c : GsCircle) : ℤ × ℤ := (roundQ c.x, roundQ c.y)

/-- hough_detector.cpp:166-167: `(int)std::round(circle[2])` — the radius as
compared by the dedup. -/
def circleRoundedRadius (c : GsCircle) : ℤ := roundQ c.r

/-- Inner loop of `RemoveSmallestConcentricCircles`: scan index `j` downward
(`j > i`), erasing the smaller-rounded-radius circle of any concentric pair;
the Boolean is true iff element `i` itself was erased (the `break` path). -/
def rsccInner (i : ℕ) : ℕ → List GsCircle → List GsCircle × Bool
  | 0, circles => (circles, false)
  | j + 1, circles =>
    if j + 1 ≤ i then (circles, false)
    else
      if h : i < circles.length ∧ j + 1 < circles.length then
        if circleXY circles[i] = circleXY circles[j+1] then
          if circleRoundedRadius circles[j+1] ≤ circleRoundedRadius circles[i] then
            rsccInner i j (circles.eraseIdx (j+1))
          else
            (circles.eraseIdx i, true)
        else rsccInner i j circles
      else rsccInner i j circles

/-- The inner loop never grows the list, and strictly shrinks it whenever it
reports that element `i` was erased. -/
theorem rsccInner_length (i : ℕ) : ∀ (j : ℕ) (cs : List GsCircle),
    (rsccInner i j cs).1.length ≤ cs.length ∧
    ((rsccInner i j cs).2 = true → (rsccInner i j cs).1.length < cs.length) := by
  intro j
  induction j with
  | zero => intro cs; exact ⟨le_rfl, by simp [rsccInner]⟩
  | succ j ih =>
    intro cs
    simp only [rsccInner]
    split
    · exact ⟨le_rfl, by simp⟩
    · split
      · rename_i h
        split
        · split
          · have he := ih (cs.eraseIdx (j+1))
            have hlen : (cs.eraseIdx (j+1)).length = cs.length - 1 := by
              rw [List.length_eraseIdx, if_pos h.2]
            refine ⟨he.1.trans (by omega), fun hb => lt_of_lt_of_le (he.2 hb) (by omega)⟩
          · have hlen : (cs.eraseIdx i).length = cs.length - 1 := by
              rw [List.length_eraseIdx, if_pos h.1]
            refine ⟨?_, fun _ => ?_⟩
            · show (cs.eraseIdx i).length ≤ cs.length
              omega
            · show (cs.eraseIdx i).length < cs.length
              omega
        · exact ih cs
      · exact ih cs

/-- Outer loop of `RemoveSmallestConcentricCircles`: advance `i` unless the
inner scan erased element `i` (in which case `i--; i++` re-runs the same
index on the shrunken vector). -/
def rsccOuter (circles : List GsCircle) (i : ℕ) : List GsCircle :=
  if h : i + 1 < circles.length then
    let res := rsccInner i (circles.length - 1) circles
    if hb : res.2 then rsccOuter res.1 i else rsccOuter res.1 (i + 1)
  else circles
termination_by circles.length - i
decreasing_by
  · have hlen := (rsccInner_length i (circles.length - 1) circles).2 hb
    omega
  · have hlen := (rsccInner_length i (circles.length - 1) circles).1
    omega

/-- `HoughDetector::RemoveSmallestConcentricCircles`
(hough_detector.cpp:154-182). -/
def removeSmallestConcentricCircles (circles : List GsCircle) : List GsCircle :=
  rsccOuter circles 0

/-- The relation "distinct integer centres". -/
def Rne (a b : GsCircle) : Prop := circleXY a ≠ circleXY b

/-- The largest rounded radius among circles of `cs` whose integer centre is
`p` (`⊥` when there is none). -/
def maxRR (p : ℤ × ℤ) (cs : List GsCircle) : WithBot ℤ :=
  ((cs.filter (fun c => decide (circleXY c = p))).map
    (fun c => (circleRoundedRadius c : WithBot ℤ))).foldr max ⊥

theorem maxRR_nil (p : ℤ × ℤ) : maxRR p [] = ⊥ := rfl

theorem maxRR_cons (p : ℤ × ℤ) (c : GsCircle) (t : List GsCircle) :
    maxRR p (c :: t) =
      if circleXY c = p then max (circleRoundedRadius c : WithBot ℤ) (maxRR p t)
      else maxRR p t := by
  unfold maxRR
  rw [List.filter_cons]
  split
  · rename_i hc
    rw [if_pos (by simpa using hc)]
    rfl
  · rename_i hc
    rw [if_neg (by simpa using hc)]

theorem le_foldr_max (l : List (WithBot ℤ)) (x : WithBot ℤ) (hx : x ∈ l) :
    x ≤ l.foldr max ⊥ := by
  induction l with
  | nil => simp at hx
  | cons a t ih =>
    rcases List.mem_cons.mp hx with rfl | hx'
    · exact le_max_left _ _
    · exact (ih hx').trans (le_max_right _ _)

theorem foldr_max_append (a b : List (WithBot ℤ)) :
    (a ++ b).foldr max ⊥ = max (a.foldr max ⊥) (b.foldr max ⊥) := by
  induction a with
  | nil => simp
  | cons x t ih =>
    simp only [List.cons_append, List.foldr_cons, ih]
    rw [max_assoc]

theorem maxRR_append (p : ℤ × ℤ) (A B : List GsCircle) :
    maxRR p (A ++ B) = max (maxRR p A) (maxRR p B) := by
  unfold maxRR
  rw [List.filter_append, List.map_append, foldr_max_append]

theorem mem_le_maxRR {c : GsCircle} {cs : List GsCircle} (hc : c ∈ cs) :
    (circleRoundedRadius c : WithBot ℤ) ≤ maxRR (circleXY c) cs := by
  unfold maxRR
  refine le_foldr_max _ _ ?_
  exact List.mem_map_of_mem _ (List.mem_filter.mpr ⟨hc, by simp⟩)

theorem maxRR_eq_bot_iff (p : ℤ × ℤ) (cs : List GsCircle) :
    maxRR p cs = ⊥ ↔ ∀ c ∈ cs, circleXY c ≠ p := by
  induction cs with
  | nil => simp [maxRR_nil]
  | cons c t ih =>
    rw [maxRR_cons]
    split
    · rename_i hc
      rw [max_eq_bot]
      simp only [WithBot.coe_ne_bot, false_and]
      constructor
      · intro h; exact absurd h (by simp)
      · intro h; exact absurd hc (h c (by simp))
    · rename_i hc
      rw [ih]
      constructor
      · intro h d hd
        rcases List.mem_cons.mp hd with rfl | hd'
        · exact hc
        · exact h d hd'
      · intro h d hd
        exact h d (List.mem_cons_of_mem _ hd)

/-- Removing one circle that is dominated (same centre, no larger rounded
radius) by a surviving circle leaves every per-centre maximum unchanged. -/
theorem maxRR_erase_mid (A B : List GsCircle) (x y : GsCircle)
    (hy : y ∈ A ++ B) (hxy : circleXY y = circleXY x)
    (hr : circleRoundedRadius x ≤ circleRoundedRadius y) (p : ℤ × ℤ) :
    maxRR p (A ++ B) = maxRR p (A ++ x :: B) := by
  rw [maxRR_append, maxRR_append, maxRR_cons]
  by_cases hc : circleXY x = p
  · rw [if_pos hc]
    have hle : (circleRoundedRadius x : WithBot ℤ) ≤ max (maxRR p A) (maxRR p B) := by
      have h1 : (circleRoundedRadius y : WithBot ℤ) ≤ maxRR p (A ++ B) := by
        rw [← hc, ← hxy]
        exact mem_le_maxRR hy
      rw [maxRR_append] at h1
      exact le_trans (by exact_mod_cast hr) h1
    rw [max_comm (circleRoundedRadius x : WithBot ℤ) (maxRR p B), ← max_assoc]
    exact (max_eq_left hle).symm
  · rw [if_neg hc]

/-- In a list with pairwise-distinct centres, each circle realises the
maximum rounded radius at its own centre. -/
theorem pairwise_maxRR_self {out : List GsCircle}
    (hpw : List.Pairwise Rne out) {c : GsCircle} (hc : c ∈ out) :
    maxRR (circleXY c) out = (circleRoundedRadius c : WithBot ℤ) := by
  induction out with
  | nil => simp at hc
  | cons a t ih =>
    rcases List.mem_cons.mp hc with rfl | hct
    · rw [maxRR_cons, if_pos rfl]
      have hbot : maxRR (circleXY c) t = ⊥ := by
        rw [maxRR_eq_bot_iff]
        intro d hd
        exact fun he => (List.pairwise_cons.mp hpw).1 d hd (he ▸ rfl)
      rw [hbot]
      exact max_eq_left bot_le
    · rw [maxRR_cons]
      have hne : ¬ circleXY a = circleXY c :=
        (List.pairwise_cons.mp hpw).1 c hct
      rw [if_neg hne]
      exact ih (List.pairwise_cons.mp hpw).2 hct

/-- Dropping more is a sublist of dropping less. -/
theorem drop_sublist_drop_of_le {α : Type} (l : List α) {m n : ℕ} (h : m ≤ n) :
    (l.drop n).Sublist (l.drop m) := by
  have : l.drop n = (l.drop m).drop (n - m) := by
    rw [List.drop_drop]
    congr 1
    omega
  rw [this]
  exact List.drop_sublist _ _

/-- Full specification of the inner scan of
`RemoveSmallestConcentricCircles`.  Given that the indices above `j` have
already been scanned clean of `ci`'s centre:
* every per-centre maximum rounded radius is preserved;
* if element `i` survived, the result is the untouched prefix through `i`
  followed by a sub-run of the old suffix containing no circle with `ci`'s
  centre;
* if element `i` was erased, the result is the untouched prefix before `i`
  followed by a sub-run of the old suffix after `i`. -/
theorem rsccInner_spec (i : ℕ) : ∀ (j : ℕ) (cs : List GsCircle) (ci : GsCircle),
    cs[i]? = some ci →
    (∀ y ∈ cs.drop (j + 1), circleXY y ≠ circleXY ci) →
    (∀ p, maxRR p (rsccInner i j cs).1 = maxRR p cs) ∧
    ((rsccInner i j cs).2 = false →
       ∃ ds, (rsccInner i j cs).1 = cs.take (i+1) ++ ds ∧ ds.Sublist (cs.drop (i+1)) ∧
             ∀ y ∈ ds, circleXY y ≠ circleXY ci) ∧
    ((rsccInner i j cs).2 = true →
       ∃ ds, (rsccInner i j cs).1 = cs.take i ++ ds ∧ ds.Sublist (cs.drop (i+1))) := by
  intro j
  induction j with
  | zero =>
    intro cs ci hci hscan
    refine ⟨fun p => rfl, fun _ => ?_, fun hb => by simp [rsccInner] at hb⟩
    refine ⟨cs.drop (i+1), (List.take_append_drop (i+1) cs).symm,
      List.Sublist.refl _, ?_⟩
    intro y hy
    exact hscan y ((drop_sublist_drop_of_le cs (by omega)).mem hy)
  | succ j ih =>
    intro cs ci hci hscan
    have hi : i < cs.length := (List.getElem?_eq_some_iff.mp hci).1
    have hgi : cs[i] = ci := (List.getElem?_eq_some_iff.mp hci).2
    simp only [rsccInner]
    by_cases hji : j + 1 ≤ i
    · rw [if_pos hji]
      refine ⟨fun p => rfl, fun _ => ?_, fun hb => by simp at hb⟩
      refine ⟨cs.drop (i+1), (List.take_append_drop (i+1) cs).symm,
        List.Sublist.refl _, ?_⟩
      intro y hy
      exact hscan y ((drop_sublist_drop_of_le cs (by omega)).mem hy)
    · rw [if_neg hji]
      by_cases hj1 : j + 1 < cs.length
      · rw [dif_pos ⟨hi, hj1⟩, hgi]
        set cj := cs[j+1] with hcjj
        have htklen : (cs.take (j+1)).length = j + 1 := by
          rw [List.length_take]
          omega
        by_cases hxy : circleXY ci = circleXY cj
        · rw [if_pos hxy]
          by_cases hr : circleRoundedRadius cj ≤ circleRoundedRadius ci
          · rw [if_pos hr]
            -- erase the scanned circle j+1 and keep scanning
            set es := cs.eraseIdx (j+1) with hes
            have hesdec : es = cs.take (j+1) ++ cs.drop (j+2) :=
              List.eraseIdx_eq_take_drop_succ cs (j+1)
            have hcs_split : cs = cs.take (j+1) ++ cj :: cs.drop (j+2) := by
              conv_lhs => rw [← List.take_append_drop (j+1) cs]
              rw [List.drop_eq_getElem_cons hj1, ← hcjj]
            have hes_i : es[i]? = some ci := by
              rw [hesdec, List.getElem?_append_left (by
                  rw [htklen]; omega),
                List.getElem?_take_of_lt (by omega)]
              exact hci
            have hdrop_es : es.drop (j+1) = cs.drop (j+2) := by
              rw [hesdec]
              have h' := List.drop_left (cs.take (j+1)) (cs.drop (j+2))
              rwa [htklen] at h'
            have hscan_es : ∀ y ∈ es.drop (j+1), circleXY y ≠ circleXY ci := by
              rw [hdrop_es]
              exact hscan
            obtain ⟨hmax_es, hfalse_es, htrue_es⟩ := ih es ci hes_i hscan_es
            have hci_mem_es : ci ∈ es := by
              have h' := List.getElem?_eq_some_iff.mp hes_i
              exact h'.2 ▸ List.getElem_mem h'.1
            have hmax_cs : ∀ p, maxRR p es = maxRR p cs := by
              intro p
              conv_rhs => rw [hcs_split]
              rw [hesdec] at hci_mem_es ⊢
              exact maxRR_erase_mid _ _ cj ci hci_mem_es hxy hr p
            have htake_le : ∀ (k : ℕ), k ≤ j + 1 → es.take k = cs.take k := by
              intro k hk
              rw [hesdec, List.take_append_of_le_length (by omega),
                List.take_take, min_eq_left (by omega)]
            have hdrop_sub : ∀ (k : ℕ), k ≤ j + 1 →
                (es.drop k).Sublist (cs.drop k) := by
              intro k hk
              rw [hesdec, List.drop_append_of_le_length (by omega)]
              conv_rhs => rw [hcs_split, List.drop_append_of_le_length (by omega)]
              refine List.Sublist.append_left ?_ _
              exact List.sublist_cons_self cj (cs.drop (j+2))
            refine ⟨fun p => (hmax_es p).trans (hmax_cs p), ?_, ?_⟩
            · intro hb
              obtain ⟨ds, hds1, hds2, hds3⟩ := hfalse_es hb
              exact ⟨ds, by rw [hds1, htake_le (i+1) (by omega)],
                hds2.trans (hdrop_sub (i+1) (by omega)), hds3⟩
            · intro hb
              obtain ⟨ds, hds1, hds2⟩ := htrue_es hb
              exact ⟨ds, by rw [hds1, htake_le i (by omega)],
                hds2.trans (hdrop_sub (i+1) (by omega))⟩
          · rw [if_neg hr]
            -- erase element i itself (the break path)
            have hcs_spliti : cs = cs.take i ++ ci :: cs.drop (i+1) := by
              conv_lhs => rw [← List.take_append_drop i cs]
              rw [List.drop_eq_getElem_cons hi, hgi]
            have heq : cs.eraseIdx i = cs.take i ++ cs.drop (i+1) :=
              List.eraseIdx_eq_take_drop_succ cs i
            have hcj_mem : cj ∈ cs.drop (i+1) := by
              have hlt : j - i < (cs.drop (i+1)).length := by
                rw [List.length_drop]
                omega
              have hgd : (cs.drop (i+1))[j-i] = cs[j+1] := by
                rw [List.getElem_drop]
                congr 1
                omega
              rw [hcjj, ← hgd]
              exact List.getElem_mem hlt
            refine ⟨?_, fun hb => by simp at hb, fun _ => ?_⟩
            · intro p
              rw [heq]
              conv_rhs => rw [hcs_spliti]
              exact maxRR_erase_mid _ _ ci cj
                (List.mem_append_right _ hcj_mem) hxy.symm
                (le_of_lt (lt_of_not_ge hr)) p
            · exact ⟨cs.drop (i+1), heq, List.Sublist.refl _⟩
        · rw [if_neg hxy]
          -- centres differ: the scan hypothesis extends over index j+1
          have hscan' : ∀ y ∈ cs.drop (j + 1), circleXY y ≠ circleXY ci := by
            rw [List.drop_eq_getElem_cons hj1, ← hcjj]
            intro y hy
            rcases List.mem_cons.mp hy with rfl | hy'
            · exact fun h => hxy h.symm
            · exact hscan y hy'
          exact ih cs ci hci hscan'
      · rw [dif_neg (fun hcon => hj1 hcon.2)]
        have hscan' : ∀ y ∈ cs.drop (j + 1), circleXY y ≠ circleXY ci := by
          rw [List.drop_eq_nil_of_le (by omega)]
          intro y hy
          simp at hy
        exact ih cs ci hci hscan'


/-- Specification of the outer loop: assuming the prefix before `i` is
already pairwise centre-distinct and centre-distinct from the whole suffix,
the loop returns a sub-run of its input with pairwise-distinct centres and
unchanged per-centre maximum rounded radii. -/
theorem rsccOuter_spec : ∀ (cs : List GsCircle) (i : ℕ),
    List.Pairwise Rne (cs.take i) →
    (∀ x ∈ cs.take i, ∀ y ∈ cs.drop i, Rne x y) →
    (rsccOuter cs i).Sublist cs ∧
    (∀ p, maxRR p (rsccOuter cs i) = maxRR p cs) ∧
    List.Pairwise Rne (rsccOuter cs i) := by
  intro cs i
  generalize hm : cs.length - i = m
  induction m using Nat.strong_induction_on generalizing cs i with
  | _ m ih =>
    intro hpre1 hpre2
    rw [rsccOuter]
    split
    · rename_i hlt
      have hi : i < cs.length := by omega
      have hci : cs[i]? = some cs[i] := List.getElem?_eq_getElem hi
      have hscan : ∀ y ∈ cs.drop ((cs.length - 1) + 1), circleXY y ≠ circleXY cs[i] := by
        rw [show cs.length - 1 + 1 = cs.length by omega, List.drop_length]
        intro y hy
        simp at hy
      obtain ⟨hmax, hfalse, htrue⟩ :=
        rsccInner_spec i (cs.length - 1) cs cs[i] hci hscan
      have hlen := rsccInner_length i (cs.length - 1) cs
      dsimp only
      split
      · -- element i was erased: rerun the same index
        rename_i hb
        obtain ⟨ds, hds1, hds2⟩ := htrue hb
        set res := rsccInner i (cs.length - 1) cs with hres
        have htki : (cs.take i).length = i := by
          rw [List.length_take]; omega
        have htake_res : res.1.take i = cs.take i := by
          rw [hds1, List.take_append_of_le_length (by omega), List.take_take,
            min_self]
        have hdrop_res : res.1.drop i = ds := by
          rw [hds1]
          have h' := List.drop_left (cs.take i) ds
          rwa [htki] at h'
        have hsub_res : res.1.Sublist cs := by
          rw [hds1]
          conv_rhs => rw [← List.take_append_drop i cs]
          exact List.Sublist.append_left
            (hds2.trans (drop_sublist_drop_of_le cs (by omega))) _
        have hm' : res.1.length - i < m := by
          have h2 := hlen.2 hb
          have h3 := hsub_res.length_le
          omega
        obtain ⟨ihs, ihm, ihp⟩ := ih (res.1.length - i) hm' res.1 i rfl
          (by rw [htake_res]; exact hpre1)
          (by
            rw [htake_res, hdrop_res]
            intro x hx y hy
            exact hpre2 x hx y
              ((hds2.trans (drop_sublist_drop_of_le cs (by omega))).mem hy))
        exact ⟨ihs.trans hsub_res, fun p => (ihm p).trans (hmax p), ihp⟩
      · -- element i survived: advance
        rename_i hb
        have hbf : (rsccInner i (cs.length - 1) cs).2 = false := by
          revert hb
          cases (rsccInner i (cs.length - 1) cs).2 <;> simp
        obtain ⟨ds, hds1, hds2, hds3⟩ := hfalse hbf
        set res := rsccInner i (cs.length - 1) cs with hres
        have htki : (cs.take (i+1)).length = i + 1 := by
          rw [List.length_take]; omega
        have htake_res : res.1.take (i+1) = cs.take (i+1) := by
          rw [hds1, List.take_append_of_le_length (by omega), List.take_take,
            min_self]
        have hdrop_res : res.1.drop (i+1) = ds := by
          rw [hds1]
          have h' := List.drop_left (cs.take (i+1)) ds
          rwa [htki] at h'
        have hsub_res : res.1.Sublist cs := by
          rw [hds1]
          conv_rhs => rw [← List.take_append_drop (i+1) cs]
          exact List.Sublist.append_left hds2 _
        have hm' : res.1.length - (i + 1) < m := by
          have h3 := hsub_res.length_le
          omega
        have htksucc : cs.take (i+1) = cs.take i ++ [cs[i]] := by
          rw [List.take_succ, hci]
          rfl
        have hcimem : cs[i] ∈ cs.drop i := by
          rw [List.drop_eq_getElem_cons hi]
          exact List.mem_cons_self _ _
        obtain ⟨ihs, ihm, ihp⟩ := ih (res.1.length - (i+1)) hm' res.1 (i+1) rfl
          (by
            rw [htake_res, htksucc]
            rw [List.pairwise_append]
            refine ⟨hpre1, List.pairwise_singleton _ _, ?_⟩
            intro a ha b hb'
            rw [List.mem_singleton.mp hb']
            exact hpre2 a ha cs[i] hcimem)
          (by
            rw [htake_res, hdrop_res, htksucc]
            intro x hx y hy
            rcases List.mem_append.mp hx with hx' | hx'
            · exact hpre2 x hx' y
                ((hds2.trans (drop_sublist_drop_of_le cs (by omega))).mem hy)
            · rw [List.mem_singleton.mp hx']
              exact fun h => (hds3 y hy) h.symm)
        exact ⟨ihs.trans hsub_res, fun p => (ihm p).trans (hmax p), ihp⟩
    · -- i+1 ≥ length: the loop is finished
      rename_i hge
      refine ⟨List.Sublist.refl _, fun p => rfl, ?_⟩
      conv => rw [← List.take_append_drop i cs]
      rw [List.pairwise_append]
      refine ⟨hpre1, ?_, hpre2⟩
      match hd : cs.drop i with
      | [] => exact List.Pairwise.nil
      | a :: t =>
        have ht : t = [] := by
          have h1 : (cs.drop i).length = cs.length - i := List.length_drop i cs
          rw [hd] at h1
          simp at h1
          have : t.length = 0 := by omega
          exact List.length_eq_zero.mp this
        rw [ht]
        exact List.pairwise_singleton _ _

/-- C6 (amended): for any input list, `RemoveSmallestConcentricCircles`
returns a sub-run of it (the relative order of remaining elements is
unchanged); no two output circles share the same integer centre; the set of
integer centres is preserved; and each output circle's **rounded** radius
(radii are compared as `(int)std::round(r)`) is the maximum rounded radius
seen with that centre — on rounded-radius ties the earlier circle is kept,
so the real-valued radius need not be the maximum. -/
theorem removeSmallestConcentricCircles_spec (cs : List GsCircle) :
    (removeSmallestConcentricCircles cs).Sublist cs ∧
    List.Pairwise Rne (removeSmallestConcentricCircles cs) ∧
    (∀ p : ℤ × ℤ,
      (∃ c ∈ removeSmallestConcentricCircles cs, circleXY c = p) ↔
      (∃ c ∈ cs, circleXY c = p)) ∧
    (∀ c ∈ removeSmallestConcentricCircles cs,
      (circleRoundedRadius c : WithBot ℤ) = maxRR (circleXY c) cs) := by
  obtain ⟨hsub, hmax, hpw⟩ := rsccOuter_spec cs 0 (by simp) (by simp)
  have hout : removeSmallestConcentricCircles cs = rsccOuter cs 0 := rfl
  rw [hout]
  refine ⟨hsub, hpw, ?_, ?_⟩
  · intro p
    constructor
    · rintro ⟨c, hc, rfl⟩
      exact ⟨c, hsub.mem hc, rfl⟩
    · rintro ⟨c, hc, hcp⟩
      by_contra hne
      push_neg at hne
      have hbot : maxRR p (rsccOuter cs 0) = ⊥ := by
        rw [maxRR_eq_bot_iff]
        intro d hd
        exact hne d hd
      have hbot' : maxRR p cs = ⊥ := by rw [← hmax p]; exact hbot
      rw [maxRR_eq_bot_iff] at hbot'
      exact hbot' c hc hcp
  · intro c hc
    have h1 : maxRR (circleXY c) (rsccOuter cs 0) =
        (circleRoundedRadius c : WithBot ℤ) := pairwise_maxRR_self hpw hc
    rw [← hmax (circleXY c), h1]

/-- `roundQ` on concrete rationals used below. -/
theorem roundQ_zero : roundQ 0 = 0 := by norm_num [roundQ]

theorem roundQ_26_5 : roundQ (26/5) = 5 := by norm_num [roundQ]

theorem roundQ_27_5 : roundQ (27/5) = 5 := by norm_num [roundQ]

/-- Concrete evaluation of the dedup on a rounded-radius tie: radii 5.2 and
5.4 both round to 5, so the earlier (smaller-radius) circle is kept. -/
theorem rscc_eval_tie :
    removeSmallestConcentricCircles [⟨0, 0, 26/5⟩, ⟨0, 0, 27/5⟩] =
      [GsCircle.mk 0 0 (26/5)] := by
  have hin : rsccInner 0 1 [⟨0, 0, 26/5⟩, ⟨0, 0, 27/5⟩] =
      ([GsCircle.mk 0 0 (26/5)], false) := by
    simp only [rsccInner]
    norm_num [circleXY, circleRoundedRadius, roundQ_26_5, roundQ_27_5, List.eraseIdx]
  have houter1 : rsccOuter [GsCircle.mk 0 0 (26/5)] 1 = [GsCircle.mk 0 0 (26/5)] := by
    rw [rsccOuter]
    norm_num
  unfold removeSmallestConcentricCircles
  rw [rsccOuter]
  norm_num [hin, houter1]

/-- C6 counterexample: on input `[(0,0,5.2), (0,0,5.4)]` (concentric, radii
tied after rounding) the output keeps the circle of radius 5.2, whose
real-valued radius is **not** the maximum radius seen with that centre. -/
theorem removeSmallest_max_radius_counterexample :
    removeSmallestConcentricCircles [⟨0, 0, 26/5⟩, ⟨0, 0, 27/5⟩] =
      [GsCircle.mk 0 0 (26/5)] ∧
    circleXY (GsCircle.mk 0 0 (26/5)) = circleXY (GsCircle.mk 0 0 (27/5)) ∧
    ¬ (∀ c ∈ removeSmallestConcentricCircles [⟨0, 0, 26/5⟩, ⟨0, 0, 27/5⟩],
        ∀ d ∈ [GsCircle.mk 0 0 (26/5), GsCircle.mk 0 0 (27/5)],
          circleXY d = circleXY c → d.r ≤ c.r) := by
  refine ⟨rscc_eval_tie, rfl, ?_⟩
  intro hmax
  have h := hmax (GsCircle.mk 0 0 (26/5)) (by rw [rscc_eval_tie]; exact List.mem_singleton.mpr rfl)
    (GsCircle.mk 0 0 (27/5)) (by simp) rfl
  norm_num at h

/-- Witness for `removeSmallestConcentricCircles_spec` on the tie example:
the kept circle's rounded radius does realise the per-centre maximum. -/
theorem removeSmallestConcentricCircles_spec_witness :
    (removeSmallestConcentricCircles [⟨0, 0, 26/5⟩, ⟨0, 0, 27/5⟩]).Sublist
      [⟨0, 0, 26/5⟩, ⟨0, 0, 27/5⟩] ∧
    (circleRoundedRadius (GsCircle.mk 0 0 (26/5)) : WithBot ℤ) =
      maxRR (circleXY (GsCircle.mk 0 0 (26/5))) [⟨0, 0, 26/5⟩, ⟨0, 0, 27/5⟩] :=
  ⟨(removeSmallestConcentricCircles_spec _).1,
   (removeSmallestConcentricCircles_spec _).2.2.2 _
     (by rw [rscc_eval_tie]; exact List.mem_singleton.mpr rfl)⟩

/-! ## Single-class non-maximum suppression (ball_image_proc.cpp:2184-2247)

`BallImageProc::SingleClassNMS(boxes, confidences, conf_threshold,
nms_threshold)`: prefilter `(confidence, index)` pairs by
`confidence >= conf_threshold` (lines 2194-2198); early-out on empty
(lines 2200-2202); `std::sort` descending by confidence (lines 2204-2205);
then the greedy suppressed-flag loop (lines 2207-2241): each unsuppressed
element pushes its original index and marks every later unsuppressed
element whose IoU with it strictly exceeds `nms_threshold`.  The embedding
carries the flags of the still-unprocessed elements with them in the list
(the flags of already-processed elements are never read again), and models
`std::sort` by insertion sort — any descending reordering; the claim's
properties are stated so that they do not depend on the tie order. -/

/-- `cv::Rect` with integer origin and size. -/
structure CvRect where
  x : ℤ
  y : ℤ
  width : ℤ
  height : ℤ
deriving DecidableEq, Repr

/-- IoU of two boxes, as computed at ball_image_proc.cpp:2222-2235:
axis-aligned intersection over (sum of areas − intersection), 0 when the
denominator is not positive. -/
def iou (box_i box_j : CvRect) : ℚ :=
  let x1 := max box_i.x box_j.x
  let y1 := max box_i.y box_j.y
  let x2 := min (box_i.x + box_i.width) (box_j.x + box_j.width)
  let y2 := min (box_i.y + box_i.height) (box_j.y + box_j.height)
  let intersection_area : ℚ := ((max 0 (x2 - x1) * max 0 (y2 - y1) : ℤ) : ℚ)
  let union_area : ℚ :=
    ((box_i.width * box_i.height : ℤ) : ℚ) +
    ((box_j.width * box_j.height : ℤ) : ℚ) - intersection_area
  if 0 < union_area then intersection_area / union_area else 0

theorem iou_comm (a b : CvRect) : iou a b = iou b a := by
  simp only [iou]
  rw [max_comm a.x b.x, max_comm a.y b.y,
    min_comm (a.x + a.width) (b.x + b.width),
    min_comm (a.y + a.height) (b.y + b.height),
    add_comm ((a.width * a.height : ℤ) : ℚ) ((b.width * b.height : ℤ) : ℚ)]

/-- Confidence prefilter (lines 2194-2198): `(confidence, index)` pairs in
index order. -/
def nmsPrefilter (confidences : List ℚ) (conf_threshold : ℚ) : List (ℚ × ℕ) :=
  (confidences.enum.filter (fun p => conf_threshold ≤ p.2)).map (fun p => (p.2, p.1))

/-- The greedy suppressed-flag loop (lines 2207-2241). -/
def nmsLoop (boxes : List CvRect) (nms_threshold : ℚ) :
    List ((ℚ × ℕ) × Bool) → List ℕ
  | [] => []
  | (_, true) :: rest => nmsLoop boxes nms_threshold rest
  | (p, false) :: rest =>
      p.2 :: nmsLoop boxes nms_threshold
        (rest.map (fun q =>
          if ¬ q.2 ∧ nms_threshold <
              iou (boxes.getD p.2 ⟨0, 0, 0, 0⟩) (boxes.getD q.1.2 ⟨0, 0, 0, 0⟩)
          then (q.1, true) else q))
termination_by l => l.length
decreasing_by
  · simp
  · simp

/-- `BallImageProc::SingleClassNMS` (ball_image_proc.cpp:2184-2247). -/
def singleClassNMS (boxes : List CvRect) (confidences : List ℚ)
    (conf_threshold nms_threshold : ℚ) : List ℕ :=
  let pairs := nmsPrefilter confidences conf_threshold
  if pairs.isEmpty then []
  else
    nmsLoop boxes nms_threshold
      (((pairs.insertionSort (fun a b => b.1 ≤ a.1)).map (fun p => (p, false))))

instance : IsTotal (ℚ × ℕ) (fun a b => b.1 ≤ a.1) := ⟨fun a b => le_total b.1 a.1⟩

instance : IsTrans (ℚ × ℕ) (fun a b => b.1 ≤ a.1) := ⟨fun _ _ _ hab hbc => le_trans hbc hab⟩

/-- An entry that is unsuppressed after a marking pass was unsuppressed
before it and (exactly as the mark condition failed) within tolerance. -/
theorem mem_map_mark_false {c : ℚ} {k : ℕ} {rest : List ((ℚ × ℕ) × Bool)}
    {f : ((ℚ × ℕ) × Bool) → ((ℚ × ℕ) × Bool)}
    (hf : ∀ q, f q = q ∨ (f q).2 = true)
    (h : ((c, k), false) ∈ rest.map f) : ((c, k), false) ∈ rest := by
  obtain ⟨q, hq, hfq⟩ := List.mem_map.mp h
  rcases hf q with heq | htrue
  · rwa [heq.symm.trans hfq] at hq
  · rw [hfq] at htrue
    simp at htrue

/-- Every index returned by the loop comes from an unsuppressed entry of the
worklist. -/
theorem nmsLoop_sound (boxes : List CvRect) (nt : ℚ) :
    ∀ (L : List ((ℚ × ℕ) × Bool)), ∀ k ∈ nmsLoop boxes nt L,
      ∃ c, ((c, k), false) ∈ L := by
  intro L
  induction L using nmsLoop.induct boxes nt with
  | case1 =>
    intro k hk
    simp [nmsLoop] at hk
  | case2 p rest ih =>
    intro k hk
    rw [nmsLoop] at hk
    obtain ⟨c, hc⟩ := ih k hk
    exact ⟨c, List.mem_cons_of_mem _ hc⟩
  | case3 p rest ih =>
    intro k hk
    rw [nmsLoop] at hk
    rcases List.mem_cons.mp hk with rfl | hk'
    · exact ⟨p.1, List.mem_cons_self _ _⟩
    · obtain ⟨c, hc⟩ := ih k hk'
      refine ⟨c, List.mem_cons_of_mem _ (mem_map_mark_false ?_ hc)⟩
      intro q
      split
      · right; rfl
      · left; rfl

/-- The kept indices are pairwise within the IoU tolerance. -/
theorem nmsLoop_pairwise (boxes : List CvRect) (nt : ℚ) :
    ∀ (L : List ((ℚ × ℕ) × Bool)),
      List.Pairwise (fun k l =>
        iou (boxes.getD k ⟨0, 0, 0, 0⟩) (boxes.getD l ⟨0, 0, 0, 0⟩) ≤ nt)
        (nmsLoop boxes nt L) := by
  intro L
  induction L using nmsLoop.induct boxes nt with
  | case1 => rw [nmsLoop]; exact List.Pairwise.nil
  | case2 p rest ih => rw [nmsLoop]; exact ih
  | case3 p rest ih =>
    rw [nmsLoop]
    refine List.Pairwise.cons ?_ ih
    intro l hl
    obtain ⟨c, hc⟩ := nmsLoop_sound boxes nt _ l hl
    obtain ⟨q, hq, hfq⟩ := List.mem_map.mp hc
    by_cases hcond : ¬ q.2 ∧ nt <
        iou (boxes.getD p.2 ⟨0, 0, 0, 0⟩) (boxes.getD q.1.2 ⟨0, 0, 0, 0⟩)
    · rw [if_pos hcond] at hfq
      simp at hfq
    · rw [if_neg hcond] at hfq
      subst hfq
      push_neg at hcond
      exact hcond (by simp)

/-- Coverage: an unsuppressed entry of a descending-by-confidence worklist
that is not kept is over-threshold against a kept entry of no smaller
confidence. -/
theorem nmsLoop_coverage (boxes : List CvRect) (nt : ℚ) :
    ∀ (L : List ((ℚ × ℕ) × Bool)),
      List.Pairwise (fun a b => b.1.1 ≤ a.1.1) L →
      ∀ c k, ((c, k), false) ∈ L → k ∉ nmsLoop boxes nt L →
      ∃ c' k', k' ∈ nmsLoop boxes nt L ∧ c ≤ c' ∧
        nt < iou (boxes.getD k ⟨0, 0, 0, 0⟩) (boxes.getD k' ⟨0, 0, 0, 0⟩) ∧
        ((c', k'), false) ∈ L := by
  intro L
  induction L using nmsLoop.induct boxes nt with
  | case1 =>
    intro _ c k hmem _
    simp at hmem
  | case2 p rest ih =>
    intro hsorted c k hmem hout
    rw [nmsLoop] at hout ⊢
    rcases List.mem_cons.mp hmem with heq | hmem'
    · simp at heq
    · obtain ⟨c', k', h1, h2, h3, h4⟩ :=
        ih (List.pairwise_cons.mp hsorted).2 c k hmem' hout
      exact ⟨c', k', h1, h2, h3, List.mem_cons_of_mem _ h4⟩
  | case3 p rest ih =>
    simp only [dite_eq_ite] at ih
    intro hsorted c k hmem hout
    rw [nmsLoop] at hout ⊢
    rcases List.mem_cons.mp hmem with heq | hmem'
    · exfalso
      apply hout
      have : k = p.2 := by
        have := congrArg (fun z => z.1.2) heq
        simpa using this
      rw [this]
      exact List.mem_cons_self _ _
    · by_cases hcond : nt <
          iou (boxes.getD p.2 ⟨0, 0, 0, 0⟩) (boxes.getD k ⟨0, 0, 0, 0⟩)
      · refine ⟨p.1, p.2, List.mem_cons_self _ _, ?_, ?_, List.mem_cons_self _ _⟩
        · exact (List.pairwise_cons.mp hsorted).1 _ hmem'
        · rw [iou_comm]
          exact hcond
      · have hfq : (fun q => if ¬ q.2 ∧ nt <
              iou (boxes.getD p.2 ⟨0, 0, 0, 0⟩) (boxes.getD q.1.2 ⟨0, 0, 0, 0⟩)
            then (q.1, true) else q) ((c, k), false) = ((c, k), false) := by
          beta_reduce
          rw [if_neg]
          intro hc
          exact hcond hc.2
        have hmem'' : ((c, k), false) ∈ rest.map (fun q => if ¬ q.2 ∧ nt <
              iou (boxes.getD p.2 ⟨0, 0, 0, 0⟩) (boxes.getD q.1.2 ⟨0, 0, 0, 0⟩)
            then (q.1, true) else q) := by
          rw [← hfq]
          exact List.mem_map_of_mem _ hmem'
        have hsorted' : List.Pairwise (fun a b => b.1.1 ≤ a.1.1)
            (rest.map (fun q => if ¬ q.2 ∧ nt <
              iou (boxes.getD p.2 ⟨0, 0, 0, 0⟩) (boxes.getD q.1.2 ⟨0, 0, 0, 0⟩)
            then (q.1, true) else q)) := by
          rw [List.pairwise_map]
          refine ((List.pairwise_cons.mp hsorted).2).imp ?_
          intro a b hab
          have hca : ∀ q : (ℚ × ℕ) × Bool, ((if ¬ q.2 ∧ nt <
              iou (boxes.getD p.2 ⟨0, 0, 0, 0⟩) (boxes.getD q.1.2 ⟨0, 0, 0, 0⟩)
            then (q.1, true) else q)).1.1 = q.1.1 := by
            intro q
            split <;> rfl
          rw [hca a, hca b]
          exact hab
        have hout' : k ∉ nmsLoop boxes nt (rest.map (fun q => if ¬ q.2 ∧ nt <
              iou (boxes.getD p.2 ⟨0, 0, 0, 0⟩) (boxes.getD q.1.2 ⟨0, 0, 0, 0⟩)
            then (q.1, true) else q)) :=
          fun hk => hout (List.mem_cons_of_mem _ hk)
        obtain ⟨c', k', h1, h2, h3, h4⟩ := ih hsorted' c k hmem'' hout'
        refine ⟨c', k', List.mem_cons_of_mem _ h1, h2, h3,
          List.mem_cons_of_mem _ (mem_map_mark_false ?_ h4)⟩
        intro q
        split
        · right; rfl
        · left; rfl

/-- Membership in the prefilter output characterised. -/
theorem nmsPrefilter_mem (confidences : List ℚ) (ct : ℚ) (c : ℚ) (k : ℕ) :
    (c, k) ∈ nmsPrefilter confidences ct ↔
      confidences[k]? = some c ∧ ct ≤ c := by
  unfold nmsPrefilter
  constructor
  · intro h
    obtain ⟨q, hq, heq⟩ := List.mem_map.mp h
    obtain ⟨hqe, hqc⟩ := List.mem_filter.mp hq
    have h1 : q.2 = c := by
      have := congrArg Prod.fst heq
      simpa using this
    have h2 : q.1 = k := by
      have := congrArg Prod.snd heq
      simpa using this
    rw [List.mem_enum_iff_getElem?] at hqe
    refine ⟨by rw [← h1, ← h2]; exact hqe, ?_⟩
    rw [← h1]
    simpa using hqc
  · rintro ⟨h1, h2⟩
    refine List.mem_map.mpr ⟨(k, c), List.mem_filter.mpr ⟨?_, by simpa using h2⟩, rfl⟩
    rw [List.mem_enum_iff_getElem?]
    exact h1

/-- C7 (amended): `SingleClassNMS` returns a subset of the input indices
(each passed the confidence prefilter); every pair of returned boxes has
IoU ≤ `nms_threshold`; and every input box with confidence ≥
`conf_threshold` that is not returned has IoU > `nms_threshold` with some
returned box of **greater-or-equal** confidence (one kept earlier in the
descending-confidence order — with tied confidences the suppressor need not
have strictly higher confidence).  IoU is axis-aligned intersection over
sum-minus-intersection, with non-positive union yielding IoU 0. -/
theorem singleClassNMS_spec (boxes : List CvRect) (confidences : List ℚ)
    (ct nt : ℚ) :
    (∀ k ∈ singleClassNMS boxes confidences ct nt,
       ∃ c, confidences[k]? = some c ∧ ct ≤ c) ∧
    List.Pairwise (fun k l =>
      iou (boxes.getD k ⟨0, 0, 0, 0⟩) (boxes.getD l ⟨0, 0, 0, 0⟩) ≤ nt)
      (singleClassNMS boxes confidences ct nt) ∧
    (∀ k c, confidences[k]? = some c → ct ≤ c →
       k ∉ singleClassNMS boxes confidences ct nt →
       ∃ k' ∈ singleClassNMS boxes confidences ct nt,
         nt < iou (boxes.getD k ⟨0, 0, 0, 0⟩) (boxes.getD k' ⟨0, 0, 0, 0⟩) ∧
         ∃ c', confidences[k']? = some c' ∧ c ≤ c') := by
  unfold singleClassNMS
  dsimp only
  split
  · rename_i hempty
    refine ⟨?_, List.Pairwise.nil, ?_⟩
    · intro k hk
      simp at hk
    · intro k c h1 h2 _
      exfalso
      have : (c, k) ∈ nmsPrefilter confidences ct :=
        (nmsPrefilter_mem confidences ct c k).mpr ⟨h1, h2⟩
      rw [List.isEmpty_iff.mp hempty] at this
      simp at this
  · rename_i hne
    set sorted := (nmsPrefilter confidences ct).insertionSort
      (fun a b => b.1 ≤ a.1) with hsorted_def
    have hmem_L0 : ∀ (c : ℚ) (k : ℕ),
        ((c, k), false) ∈ sorted.map (fun p => (p, false)) ↔
        (c, k) ∈ nmsPrefilter confidences ct := by
      intro c k
      constructor
      · intro h
        obtain ⟨q, hq, heq⟩ := List.mem_map.mp h
        have : q = (c, k) := by
          have := congrArg Prod.fst heq
          simpa using this
        rw [this] at hq
        exact (List.perm_insertionSort _ _).mem_iff.mp hq
      · intro h
        exact List.mem_map_of_mem _
          ((List.perm_insertionSort (fun a b => b.1 ≤ a.1)
            (nmsPrefilter confidences ct)).mem_iff.mpr h)
    refine ⟨?_, nmsLoop_pairwise boxes nt _, ?_⟩
    · intro k hk
      obtain ⟨c, hc⟩ := nmsLoop_sound boxes nt _ k hk
      have := (hmem_L0 c k).mp hc
      obtain ⟨h1, h2⟩ := (nmsPrefilter_mem confidences ct c k).mp this
      exact ⟨c, h1, h2⟩
    · intro k c h1 h2 hout
      have hmem : ((c, k), false) ∈ sorted.map (fun p => (p, false)) :=
        (hmem_L0 c k).mpr ((nmsPrefilter_mem confidences ct c k).mpr ⟨h1, h2⟩)
      have hsorted : List.Pairwise (fun a b => b.1.1 ≤ a.1.1)
          (sorted.map (fun p => (p, false))) := by
        rw [List.pairwise_map]
        exact List.sorted_insertionSort (fun a b : ℚ × ℕ => b.1 ≤ a.1) _
      obtain ⟨c', k', hk'1, hk'2, hk'3, hk'4⟩ :=
        nmsLoop_coverage boxes nt _ hsorted c k hmem hout
      obtain ⟨h1', h2'⟩ := (nmsPrefilter_mem confidences ct c' k').mp
        ((hmem_L0 c' k').mp hk'4)
      exact ⟨k', hk'1, hk'3, c', h1', hk'2⟩

/-- Concrete evaluation: two identical boxes with tied confidence; the
first is kept, the second suppressed. -/
theorem nms_eval_tie :
    singleClassNMS [⟨0, 0, 10, 10⟩, ⟨0, 0, 10, 10⟩] [1/2, 1/2] 0 (1/4) = [0] := by
  have hiou : iou (⟨0, 0, 10, 10⟩ : CvRect) ⟨0, 0, 10, 10⟩ = 1 := by
    norm_num [iou]
  have hpre : nmsPrefilter [1/2, 1/2] 0 = [((1:ℚ)/2, 0), ((1:ℚ)/2, 1)] := by
    unfold nmsPrefilter
    norm_num [List.enum, List.enumFrom]
  have hsort : List.insertionSort (fun a b : ℚ × ℕ => b.1 ≤ a.1)
      [((1:ℚ)/2, 0), ((1:ℚ)/2, 1)] = [((1:ℚ)/2, 0), ((1:ℚ)/2, 1)] := by
    norm_num [List.insertionSort, List.orderedInsert]
  unfold singleClassNMS
  rw [hpre]
  norm_num [hsort]
  rw [nmsLoop]
  norm_num [hiou]
  rw [nmsLoop, nmsLoop]

/-- C7 counterexample: two identical boxes with tied confidence 1/2 and
thresholds `conf = 0`, `nms = 1/4`.  Box 1 passes the prefilter, is not
returned, yet no returned box has **strictly higher** confidence than it
(the suppressor, box 0, has equal confidence). -/
theorem singleClassNMS_higher_conf_counterexample :
    singleClassNMS [⟨0, 0, 10, 10⟩, ⟨0, 0, 10, 10⟩] [1/2, 1/2] 0 (1/4) = [0] ∧
    (1 : ℕ) ∉ singleClassNMS [⟨0, 0, 10, 10⟩, ⟨0, 0, 10, 10⟩] [1/2, 1/2] 0 (1/4) ∧
    ([(1:ℚ)/2, 1/2][1]? = some ((1:ℚ)/2)) ∧ ((0:ℚ) ≤ (1:ℚ)/2) ∧
    ¬ (∃ k' ∈ singleClassNMS [⟨0, 0, 10, 10⟩, ⟨0, 0, 10, 10⟩] [1/2, 1/2] 0 (1/4),
        ∃ c', [(1:ℚ)/2, 1/2][k']? = some c' ∧ (1:ℚ)/2 < c') := by
  refine ⟨nms_eval_tie, by rw [nms_eval_tie]; simp, by norm_num, by norm_num, ?_⟩
  rintro ⟨k', hk', c', hc', hlt⟩
  rw [nms_eval_tie] at hk'
  have : k' = 0 := by simpa using hk'
  subst this
  have : c' = (1:ℚ)/2 := by
    rw [show ([(1:ℚ)/2, 1/2][0]? = some ((1:ℚ)/2)) from by norm_num] at hc'
    exact (Option.some_injective _ hc').symm
  subst this
  exact absurd hlt (by norm_num)

/-- Witness for `singleClassNMS_spec`: the suppressed box 1 of the tie
example is covered by kept box 0 with greater-or-equal confidence. -/
theorem singleClassNMS_spec_witness :
    ([(1:ℚ)/2, 1/2][1]? = some ((1:ℚ)/2)) ∧ ((0:ℚ) ≤ (1:ℚ)/2) ∧
    ((1 : ℕ) ∉ singleClassNMS [⟨0, 0, 10, 10⟩, ⟨0, 0, 10, 10⟩] [1/2, 1/2] 0 (1/4)) ∧
    ∃ k' ∈ singleClassNMS [⟨0, 0, 10, 10⟩, ⟨0, 0, 10, 10⟩] [1/2, 1/2] 0 (1/4),
      (1/4 : ℚ) < iou (([⟨0, 0, 10, 10⟩, ⟨0, 0, 10, 10⟩] : List CvRect).getD 1 ⟨0, 0, 0, 0⟩)
        (([⟨0, 0, 10, 10⟩, ⟨0, 0, 10, 10⟩] : List CvRect).getD k' ⟨0, 0, 0, 0⟩) ∧
      ∃ c', [(1:ℚ)/2, 1/2][k']? = some c' ∧ (1:ℚ)/2 ≤ c' :=
  ⟨by norm_num, by norm_num, by rw [nms_eval_tie]; simp,
   (singleClassNMS_spec [⟨0, 0, 10, 10⟩, ⟨0, 0, 10, 10⟩] [1/2, 1/2] 0 (1/4)).2.2
     1 ((1:ℚ)/2) (by norm_num) (by norm_num) (by rw [nms_eval_tie]; simp)⟩

/-! ## Detector facade: adaptive Hough loop
(ball_detection/ball_detector_facade.cpp:72-284)

State of the loop of `GetBallHough` (lines 149-265): the accumulator
threshold `currentParam2`, the retained circle list (whose length is
`priorNumCircles` at the top of each iteration), and the
`currentlyLooseningSearch` direction flag.  `cv::HoughCircles` on the fixed
preprocessed image is abstracted by an oracle from `param2` — the only
loop-varying argument (the radius bounds are even-rounded idempotently
from the first iteration on) — to the returned circle list; the
concentric dedup is the real `removeSmallestConcentricCircles`. -/

/-- The `param2` family of a mode bundle (search_strategy.h:56-61). -/
structure DetectionParams where
  starting_param2 : ℚ
  min_param2 : ℚ
  max_param2 : ℚ
  param2_increment : ℚ
  min_hough_return_circles : ℤ
  max_hough_return_circles : ℤ
deriving Repr

/-- Mutable state of the adaptive loop (lines 150-153). -/
structure LoopState where
  currentParam2 : ℚ
  circles : List GsCircle
  currentlyLooseningSearch : Bool
deriving Repr

/-- Outcome of one iteration: continue with a new state, or leave the loop
with the final circle list (empty = detection failure). -/
inductive LoopOutcome where
  | next (s : LoopState)
  | finished (circles : List GsCircle)
deriving Repr

/-- One iteration of the adaptive loop (ball_detector_facade.cpp:172-265).
Note the final `.next s`: when `0 < numCircles < min_hough_return_circles`
with `priorNumCircles > 0` and the search not currently loosening, **no
branch of the source applies** — `done`, `currentParam2`, `circles` and the
direction flag are all left unchanged. -/
def loopStep (params : DetectionParams) (hough : ℚ → List GsCircle)
    (s : LoopState) : LoopOutcome :=
  let test_circles := removeSmallestConcentricCircles (hough s.currentParam2)
  let priorNumCircles : ℤ := s.circles.length
  let numCircles : ℤ := test_circles.length
  if params.min_hough_return_circles ≤ numCircles ∧
      numCircles ≤ params.max_hough_return_circles then
    .finished test_circles                                        -- lines 203-209
  else if params.max_hough_return_circles < numCircles then
    if priorNumCircles = 0 ∧ s.currentParam2 ≠ params.starting_param2 then
      .finished test_circles                                      -- lines 215-219
    else if params.max_param2 ≤ s.currentParam2 then
      .finished test_circles                                      -- lines 220-224
    else                                                          -- lines 225-230
      .next ⟨s.currentParam2 + params.param2_increment, test_circles, false⟩
  else
    if numCircles = 0 ∧ priorNumCircles = 0 then
      if s.currentParam2 ≤ params.min_param2 then
        .finished s.circles                                       -- lines 236-241 (failure)
      else                                                        -- lines 242-245
        .next ⟨s.currentParam2 - params.param2_increment, s.circles, true⟩
    else if ((0 < numCircles ∧ numCircles < params.min_hough_return_circles) ∧
        priorNumCircles = 0) ∨ s.currentlyLooseningSearch then
      if s.currentParam2 ≤ params.min_param2 then
        .finished test_circles                                    -- lines 250-253
      else                                                        -- lines 254-257
        .next ⟨s.currentParam2 - params.param2_increment, test_circles, true⟩
    else if numCircles = 0 ∧ 0 < priorNumCircles then
      .finished s.circles                                         -- lines 259-262 (prior)
    else
      .next s                                                     -- no branch applies

/-- The `while (!done)` loop, fuel-indexed; `none` means the fuel ran out
before the loop terminated. -/
def runLoop (params : DetectionParams) (hough : ℚ → List GsCircle) :
    ℕ → LoopState → Option (List GsCircle)
  | 0, _ => none
  | fuel + 1, s =>
    match loopStep params hough s with
    | .finished circles => some circles
    | .next s' => runLoop params hough fuel s'

/-- Initial state (lines 150-153): `currentParam2 = starting_param2`, no
retained circles, not loosening. -/
def initLoopState (params : DetectionParams) : LoopState :=
  ⟨params.starting_param2, [], false⟩

theorem roundQ_intCast (n : ℤ) : roundQ (n : ℚ) = n := by
  unfold roundQ
  rcases le_or_lt 0 (n : ℚ) with h | h
  · rw [if_pos h, Int.floor_eq_iff]
    constructor
    · push_cast
      linarith
    · push_cast
      linarith
  · rw [if_neg (not_le.mpr h), Int.ceil_eq_iff]
    constructor
    · push_cast
      linarith
    · push_cast
      linarith

/-- On a list of circles with pairwise-distinct integer centres the dedup is
the identity. -/
theorem removeSmallest_of_pairwise (cs : List GsCircle)
    (h : List.Pairwise Rne cs) : removeSmallestConcentricCircles cs = cs := by
  obtain ⟨hsub, hmax, hpw⟩ := rsccOuter_spec cs 0 (by simp) (by simp)
  have hout : removeSmallestConcentricCircles cs = rsccOuter cs 0 := rfl
  rw [hout]
  refine hsub.eq_of_length ?_
  have hnd1 : ((rsccOuter cs 0).map circleXY).Nodup := by
    rw [List.Nodup, List.pairwise_map]
    exact hpw.imp (fun hab => hab)
  have hnd2 : (cs.map circleXY).Nodup := by
    rw [List.Nodup, List.pairwise_map]
    exact h.imp (fun hab => hab)
  have hmem : ∀ p : ℤ × ℤ,
      p ∈ (rsccOuter cs 0).map circleXY ↔ p ∈ cs.map circleXY := by
    intro p
    constructor
    · intro hp
      obtain ⟨c, hc, rfl⟩ := List.mem_map.mp hp
      exact List.mem_map_of_mem _ (hsub.mem hc)
    · intro hp
      obtain ⟨c, hc, rfl⟩ := List.mem_map.mp hp
      by_contra hnc
      have hbot : maxRR (circleXY c) (rsccOuter cs 0) = ⊥ := by
        rw [maxRR_eq_bot_iff]
        intro d hd he
        exact hnc (List.mem_map.mpr ⟨d, hd, he⟩)
      have hbot2 : maxRR (circleXY c) cs = ⊥ := by
        rw [← hmax (circleXY c)]
        exact hbot
      rw [maxRR_eq_bot_iff] at hbot2
      exact hbot2 c hc rfl
  have hperm : ((rsccOuter cs 0).map circleXY).Perm (cs.map circleXY) := by
    refine List.perm_of_nodup_nodup_toFinset_eq hnd1 hnd2 ?_
    ext p
    rw [List.mem_toFinset, List.mem_toFinset]
    exact hmem p
  have := hperm.length_eq
  simpa using this

/-- The externally-strobed parameter bundle defaults
(hough_detector.cpp:84-91): `starting_param2 = 65`, `min_param2 = 28`,
`max_param2 = 100`, increment 4, accepted count window `[3, 20]`. -/
def extStrobedParams : DetectionParams := ⟨65, 28, 100, 4, 3, 20⟩

/-- 21 circles with pairwise-distinct integer centres. -/
def c1Circle (k : ℕ) : GsCircle := ⟨(k : ℚ) * 10, 0, 20⟩

def c1Circles : List GsCircle := (List.range 21).map c1Circle

/-- A Hough oracle: 21 circles at the starting `param2`, a single circle
after one tightening step, nothing elsewhere. -/
def c1Hough : ℚ → List GsCircle := fun p2 =>
  if p2 = 65 then c1Circles else if p2 = 69 then [⟨0, 0, 20⟩] else []

/-- The state in which the loop wedges: one tightening step taken, a prior
result of 21 circles retained, not loosening. -/
def c1Stuck : LoopState := ⟨69, c1Circles, false⟩

theorem circleXY_c1 (k : ℕ) :
    circleXY (c1Circle k) = (10 * (k : ℤ), 0) := by
  unfold circleXY c1Circle
  rw [show ((k : ℚ) * 10) = ((10 * (k : ℤ) : ℤ) : ℚ) by push_cast; ring]
  rw [roundQ_intCast, roundQ_zero]

theorem c1Circles_pairwise : List.Pairwise Rne c1Circles := by
  unfold c1Circles
  rw [List.pairwise_map]
  refine List.pairwise_lt_range 21 |>.imp ?_
  intro a b hab
  rw [Rne, circleXY_c1, circleXY_c1]
  intro hcon
  rw [Prod.mk.injEq] at hcon
  omega

theorem c1_dedup : removeSmallestConcentricCircles c1Circles = c1Circles :=
  removeSmallest_of_pairwise _ c1Circles_pairwise

theorem c1_dedup_single :
    removeSmallestConcentricCircles [⟨0, 0, 20⟩] = [GsCircle.mk 0 0 20] :=
  removeSmallest_of_pairwise _ (List.pairwise_singleton _ _)

theorem c1Circles_length : c1Circles.length = 21 := by
  unfold c1Circles
  rw [List.length_map, List.length_range]

theorem c1_step1 :
    loopStep extStrobedParams c1Hough (initLoopState extStrobedParams) =
      .next c1Stuck := by
  unfold loopStep initLoopState extStrobedParams c1Hough c1Stuck
  norm_num [c1_dedup, c1Circles_length]

theorem c1_step2 :
    loopStep extStrobedParams c1Hough c1Stuck = .next c1Stuck := by
  unfold loopStep extStrobedParams c1Hough c1Stuck
  norm_num [c1_dedup_single, c1Circles_length]

/-- C1: the adaptive Hough parameter loop does **not** terminate for every
mode parameter bundle and sequence of Hough results.  With the
externally-strobed `param2` defaults and count window `[3, 20]`, a Hough
sequence returning 21 (concentric-free) circles at `param2 = 65` and a
single circle at `param2 = 69` drives the loop into the unhandled state
`0 < numCircles < min_hough_return_circles ∧ priorNumCircles > 0 ∧
¬currentlyLooseningSearch`, in which no branch of
ball_detector_facade.cpp:203-263 fires and the state never changes: the
loop runs forever (no fuel suffices), contradicting the claimed
`⌈(max_param2 − min_param2)/increment⌉ + 2` iteration bound. -/
theorem adaptive_hough_loop_divergence :
    ∀ fuel : ℕ,
      runLoop extStrobedParams c1Hough fuel (initLoopState extStrobedParams) =
        none := by
  have hstuck : ∀ fuel, runLoop extStrobedParams c1Hough fuel c1Stuck = none := by
    intro fuel
    induction fuel with
    | zero => rfl
    | succ n ih =>
      rw [runLoop, c1_step2]
      exact ih
  intro fuel
  cases fuel with
  | zero => rfl
  | succ n =>
    rw [runLoop, c1_step1]
    exact hstuck n

/-! ## Detector facade: candidate filtering and scoring
(ball_detection/ball_detector_facade.cpp:286-333 and 335-514)

`FilterAndScoreCandidates(circles, baseBall, return_balls, rgbImg,
search_mode, report_find_failures)`.  The colour statistics of each
candidate circle (a patch of `rgbImg`) enter only through the two colour
distances; they are abstracted by the oracles `avgDiff`/`stdDiff`, indexed
by the candidate's 1-based position (the source's loop variable `i`).
`expectedBallColorExists` (lines 357-373) is the Boolean input
`colorExists`.  `std::sort` is modelled by insertion sort. -/

/-- `SearchStrategy::Mode` (search_strategy.h). -/
inductive SearchMode where
  | findPlacedBall
  | strobed
  | externallyStrobed
  | putting
  | unknown
deriving DecidableEq, Repr

/-- The fields of a returned `GolfBall` that this development tracks. -/
structure GolfBall where
  quality_ranking : ℤ
  ball_circle : GsCircle
  measured_radius_pixels : ℤ
deriving DecidableEq, Repr

/-- An element of `foundCircleList` (ball_detector_facade.cpp:379-388),
restricted to the fields the filter reads. -/
structure CircleCandidateListElement where
  circle : GsCircle
  calculated_color_difference : ℚ
  found_radius : ℤ
deriving DecidableEq, Repr

instance : Inhabited CircleCandidateListElement := ⟨⟨⟨0, 0, 0⟩, 0, 0⟩⟩

/-- The scoring loop (ball_detector_facade.cpp:393-445): 1-based index `i`
incremented before any check, break above 200, radius-10 rejection, and the
composite score `avg² + 20·std² + 200·(10·i)³` when colour statistics are
computed (`expectedBallColorExists || search_mode == kPutting`), else 0. -/
def scoreCandidatesAux (computeStats : Bool) (avgDiff stdDiff : ℕ → ℚ) :
    List GsCircle → ℕ → List CircleCandidateListElement
  | [], _ => []
  | c :: rest, i =>
    let i' := i + 1
    if 200 < i' then []
    else
      let found_radius := roundQ c.r
      if found_radius < 10 then scoreCandidatesAux computeStats avgDiff stdDiff rest i'
      else
        let score : ℚ :=
          if computeStats then
            (avgDiff i') ^ 2 + 20 * (stdDiff i') ^ 2 + 200 * ((10 * i' : ℕ) : ℚ) ^ 3
          else 0
        ⟨c, score, found_radius⟩ :: scoreCandidatesAux computeStats avgDiff stdDiff rest i'

/-- Conversion to `GolfBall`s with quality ranks assigned in order
(ball_detector_facade.cpp:497-510). -/
def toGolfBalls (finalCandidates : List CircleCandidateListElement) : List GolfBall :=
  finalCandidates.mapIdx (fun idx e => ⟨(idx : ℤ), e.circle, e.found_radius⟩)

/-- Round to nearest integer, ties to even (the IEEE 754 default rounding).
-/
def roundHalfEven (q : ℚ) : ℤ :=
  if q - ⌊q⌋ < 1/2 then ⌊q⌋
  else if 1/2 < q - ⌊q⌋ then ⌊q⌋ + 1
  else if ⌊q⌋ % 2 = 0 then ⌊q⌋ else ⌊q⌋ + 1

/-- The value obtained by narrowing a real (here: rational) value to an IEEE
754 binary32 `float` under round-to-nearest-even, for finite results: a
binary32 value with exponent `e` (`2^e ≤ |q| < 2^(e+1)`, clamped below at
the subnormal exponent −126) carries 23 fraction bits, so the representable
grid around `q` has spacing `2^(e−23)`.  Overflow to infinity (magnitudes
at or above `2^128`) is not modelled; every colour score the program can
produce is at most `(√3·255)² + 20·(√3·255)² + 200·2000³ < 2^41`, far below
it.  Used for the `float maxRGBDistance` narrowing at
ball_detector_facade.cpp:468 (and ball_image_proc.cpp:1558). -/
def toFloat32 (q : ℚ) : ℚ :=
  if q = 0 then 0
  else
    let e : ℤ := max (Int.log 2 |q|) (-126)
    roundHalfEven (q / 2 ^ (e - 23)) * 2 ^ (e - 23)

theorem roundHalfEven_intCast (n : ℤ) : roundHalfEven (n : ℚ) = n := by
  unfold roundHalfEven
  rw [Int.floor_intCast]
  norm_num

theorem abs_roundHalfEven_sub (x : ℚ) : |(roundHalfEven x : ℚ) - x| ≤ 1/2 := by
  have h0 := Int.floor_le x
  have h1 := Int.lt_floor_add_one x
  unfold roundHalfEven
  split
  · rename_i h
    rw [abs_le]
    constructor <;> linarith
  · split
    · rename_i h h'
      rw [abs_le]
      constructor <;> push_cast <;> linarith
    · split <;>
        (rename_i h h' _
         rw [abs_le]
         constructor <;> push_cast <;> linarith)

/-- `Int.log 2` pinned by a power-of-two bracket. -/
theorem Int_log2_eq (q : ℚ) (x : ℤ) (h0 : 0 < q) (h1 : 2 ^ x ≤ q)
    (h2 : q < 2 ^ (x + 1)) : Int.log 2 q = x := by
  have hle : x ≤ Int.log 2 q := by
    rw [← Int.zpow_le_iff_le_log (by norm_num) h0]
    push_cast
    exact h1
  have hlt : Int.log 2 q < x + 1 := by
    rw [← Int.lt_zpow_iff_log_lt (by norm_num) h0]
    push_cast
    exact h2
  omega

/-- Narrowing a positive value below `2^30` to `float` moves it by at most
half the largest grid spacing in that range, `2^6/2 = 32`. -/
theorem toFloat32_err (q : ℚ) (h0 : 0 < q) (h1 : q < 2 ^ 30) :
    |toFloat32 q - q| ≤ 32 := by
  have hlog : Int.log 2 q < 30 := by
    rw [← Int.lt_zpow_iff_log_lt (by norm_num) h0]
    push_cast
    exact_mod_cast h1
  unfold toFloat32
  rw [if_neg (ne_of_gt h0), abs_of_pos h0]
  dsimp only
  set E : ℤ := max (Int.log 2 q) (-126) with hE
  have hE29 : E ≤ 29 := max_le (by omega) (by norm_num)
  have hupos : (0:ℚ) < 2 ^ (E - 23) := zpow_pos (by norm_num) _
  have hule : (2:ℚ) ^ (E - 23) ≤ 64 := by
    calc (2:ℚ) ^ (E - 23) ≤ 2 ^ (6:ℤ) := zpow_le_of_le (by norm_num) (by omega)
    _ = 64 := by norm_num
  have key := abs_roundHalfEven_sub (q / 2 ^ (E - 23))
  have hfac : (roundHalfEven (q / 2 ^ (E - 23)) : ℚ) * 2 ^ (E - 23) - q =
      ((roundHalfEven (q / 2 ^ (E - 23)) : ℚ) - q / 2 ^ (E - 23)) *
        2 ^ (E - 23) := by
    field_simp
  rw [hfac, abs_mul, abs_of_pos hupos]
  calc |(roundHalfEven (q / 2 ^ (E - 23)) : ℚ) - q / 2 ^ (E - 23)| *
        2 ^ (E - 23) ≤ (1/2) * 64 :=
      mul_le_mul key hule (le_of_lt hupos) (by norm_num)
  _ = 32 := by norm_num

/-- A value already on the binary32 grid is narrowed to itself. -/
theorem toFloat32_eq_self_aux (q : ℚ) (m : ℤ) (hq : q ≠ 0)
    (hm : q = (m : ℚ) * 2 ^ (max (Int.log 2 |q|) (-126) - 23)) :
    toFloat32 q = q := by
  unfold toFloat32
  rw [if_neg hq]
  dsimp only
  set E : ℤ := max (Int.log 2 |q|) (-126) with hE
  have hupos : (0:ℚ) < 2 ^ (E - 23) := zpow_pos (by norm_num) _
  have hdiv : q / 2 ^ (E - 23) = (m : ℚ) := by
    rw [hm]
    field_simp
  rw [hdiv, roundHalfEven_intCast, ← hm]

theorem toFloat32_1640050 : toFloat32 (1640050 : ℚ) = 1640050 := by
  have habs : |(1640050 : ℚ)| = 1640050 := by norm_num
  have hlog : Int.log 2 (1640050 : ℚ) = 20 :=
    Int_log2_eq _ 20 (by norm_num)
      (by rw [show (2:ℚ) ^ (20:ℤ) = 1048576 from by norm_num]; norm_num)
      (by rw [show (2:ℚ) ^ ((20:ℤ) + 1) = 2097152 from by norm_num]; norm_num)
  refine toFloat32_eq_self_aux _ 13120400 (by norm_num) ?_
  rw [habs, hlog]
  rw [show max (20:ℤ) (-126) - 23 = (-3 : ℤ) from by norm_num]
  rw [show (2:ℚ) ^ (-3:ℤ) = 1/8 from by norm_num]
  norm_num

/-- The decisive narrowing: `float(1 166 400 059)` rounds DOWN by 59 to
`1 166 400 000` (the grid spacing at `2^30 ≤ q < 2^31` is `2^7 = 128`). -/
theorem toFloat32_1166400059 : toFloat32 (1166400059 : ℚ) = 1166400000 := by
  have habs : |(1166400059 : ℚ)| = 1166400059 := by norm_num
  have hlog : Int.log 2 (1166400059 : ℚ) = 30 :=
    Int_log2_eq _ 30 (by norm_num)
      (by rw [show (2:ℚ) ^ (30:ℤ) = 1073741824 from by norm_num]; norm_num)
      (by rw [show (2:ℚ) ^ ((30:ℤ) + 1) = 2147483648 from by norm_num]; norm_num)
  unfold toFloat32
  rw [if_neg (by norm_num)]
  dsimp only
  rw [habs, hlog]
  rw [show max (30:ℤ) (-126) - 23 = (7 : ℤ) from by norm_num]
  rw [show (2:ℚ) ^ (7:ℤ) = 128 from by norm_num]
  rw [show (1166400059 : ℚ) / 128 = 9112500 + 59/128 from by norm_num]
  unfold roundHalfEven
  rw [show ⌊(9112500 + 59/128 : ℚ)⌋ = 9112500 from by
    rw [Int.floor_eq_iff] <;> norm_num]
  rw [if_pos (by push_cast; norm_num)]
  norm_num

/-- `BallDetectorFacade::FilterAndScoreCandidates`
(ball_detector_facade.cpp:335-514); `none` models a `false` return (the
out-parameter untouched), `some balls` the `true` return with `return_balls`
holding `balls`. -/
def filterAndScoreCandidates (circles : List GsCircle) (colorExists : Bool)
    (mode : SearchMode) (avgDiff stdDiff : ℕ → ℚ) : Option (List GolfBall) :=
  if circles.isEmpty then none                                    -- lines 344-349
  else
    let foundCircleList :=
      scoreCandidatesAux (colorExists || decide (mode = SearchMode.putting))
        avgDiff stdDiff circles 0
    if foundCircleList.isEmpty then none                          -- lines 447-452
    else
      -- lines 454-461: sort ascending by score unless strobed (when colour known)
      let sortedList :=
        if mode ≠ SearchMode.strobed ∧ colorExists then
          foundCircleList.insertionSort (fun a b =>
            a.calculated_color_difference ≤ b.calculated_color_difference)
        else foundCircleList
      -- lines 463-488: strobed colour-tolerance filter (threshold narrowed
      -- to float at line 468) + radius-descending sort
      let finalCandidates :=
        if mode = SearchMode.strobed ∧ colorExists then
          let firstCircle := sortedList.headI
          let maxRGBDistance :=
            toFloat32 (firstCircle.calculated_color_difference + 50)
          (sortedList.filter (fun e =>
            e.calculated_color_difference ≤ maxRGBDistance)).insertionSort
            (fun a b => b.found_radius ≤ a.found_radius)
        else sortedList
      if finalCandidates.isEmpty then none                        -- lines 490-495
      else some (toGolfBalls finalCandidates)

/-- `BallDetectorFacade::GetBall` / `GetBallHough`
(ball_detector_facade.cpp:33-57, 72-284) as a function of: whether the
image is empty (line 45), the search mode (mode-specific preprocessing
fails only for `kUnknown`, lines 118-122 and 328-332), the `param2`
parameter bundle and Hough oracle of the adaptive loop, the ROI offset
(lines 276-280), and the colour inputs of the candidate filter.  The result
is `none` when the adaptive loop does not terminate within `fuel`
iterations; otherwise `some (return_value, return_balls)`, with
`return_balls` as left in an initially empty out-list. -/
def getBall (imgEmpty : Bool) (mode : SearchMode) (params : DetectionParams)
    (hough : ℚ → List GsCircle) (fuel : ℕ) (offset : ℤ × ℤ)
    (colorExists : Bool) (avgDiff stdDiff : ℕ → ℚ) :
    Option (Bool × List GolfBall) :=
  if imgEmpty then some (false, [])                               -- lines 45-48
  else if mode = SearchMode.unknown then some (false, [])         -- lines 118-122
  else
    match runLoop params hough fuel (initLoopState params) with
    | none => none
    | some circles =>
      if circles.isEmpty then some (false, [])                    -- lines 267-272
      else
        let translated := circles.map (fun c =>
          ⟨c.x + (offset.1 : ℚ), c.y + (offset.2 : ℚ), c.r⟩)      -- lines 277-280
        match filterAndScoreCandidates translated colorExists mode avgDiff stdDiff with
        | none => some (false, [])
        | some balls => some (true, balls)

instance : IsTotal CircleCandidateListElement
    (fun a b => b.found_radius ≤ a.found_radius) := ⟨fun a b => le_total b.found_radius a.found_radius⟩

instance : IsTrans CircleCandidateListElement
    (fun a b => b.found_radius ≤ a.found_radius) := ⟨fun _ _ _ hab hbc => le_trans hbc hab⟩

/-- Converted ball lists start at quality rank 0
(ball_detector_facade.cpp:497-510). -/
theorem toGolfBalls_first_rank (fc : List CircleCandidateListElement)
    (hne : fc ≠ []) :
    ∃ b t, toGolfBalls fc = b :: t ∧ b.quality_ranking = 0 := by
  cases fc with
  | nil => exact absurd rfl hne
  | cons f rest =>
    unfold toGolfBalls
    rw [List.mapIdx_cons]
    exact ⟨_, _, rfl, rfl⟩

/-- The shape of the final emptiness check of `FilterAndScoreCandidates`
(ball_detector_facade.cpp:490-510). -/
theorem filterAndScore_some_shape (X : List CircleCandidateListElement)
    (balls : List GolfBall)
    (h : (if X.isEmpty then none else some (toGolfBalls X)) = some balls) :
    ∃ b t, balls = b :: t ∧ b.quality_ranking = 0 := by
  split at h
  · exact absurd h (by simp)
  · rename_i hne
    rw [Option.some_inj] at h
    subst h
    exact toGolfBalls_first_rank _ (fun hc => hne (by rw [hc]; rfl))

/-- A successful `FilterAndScoreCandidates` returns a non-empty list whose
first entry has quality rank 0. -/
theorem filterAndScore_first_rank (circles : List GsCircle) (colorExists : Bool)
    (mode : SearchMode) (avgDiff stdDiff : ℕ → ℚ) (balls : List GolfBall)
    (h : filterAndScoreCandidates circles colorExists mode avgDiff stdDiff = some balls) :
    ∃ b t, balls = b :: t ∧ b.quality_ranking = 0 := by
  unfold filterAndScoreCandidates at h
  dsimp only at h
  split at h
  · exact absurd h (by simp)
  split at h
  · exact absurd h (by simp)
  exact filterAndScore_some_shape _ _ h

/-! ### A concrete successful detection (C2 witness input) -/

/-- The placed-ball parameter bundle defaults (hough_detector.cpp:74-81). -/
def c2Params : DetectionParams := ⟨40, 30, 60, 4, 1, 4⟩

/-- A Hough oracle returning one circle at every `param2`. -/
def c2Hough : ℚ → List GsCircle := fun _ => [⟨100, 100, 20⟩]

theorem c2_dedup :
    removeSmallestConcentricCircles [(⟨100, 100, 20⟩ : GsCircle)] =
      [GsCircle.mk 100 100 20] :=
  removeSmallest_of_pairwise _ (List.pairwise_singleton _ _)

theorem c2_step :
    loopStep c2Params c2Hough (initLoopState c2Params) =
      .finished [⟨100, 100, 20⟩] := by
  unfold loopStep initLoopState c2Params c2Hough
  norm_num [c2_dedup]

theorem c2_loop :
    runLoop c2Params c2Hough 1 (initLoopState c2Params) =
      some [⟨100, 100, 20⟩] := by
  rw [show (1 : ℕ) = 0 + 1 from rfl, runLoop, c2_step]

theorem c2_eval :
    getBall false SearchMode.findPlacedBall c2Params c2Hough 1 (0, 0) false
      (fun _ => 0) (fun _ => 0) =
      some (true, [⟨0, ⟨100, 100, 20⟩, 20⟩]) := by
  unfold getBall
  rw [if_neg, if_neg, c2_loop]
  · norm_num [filterAndScoreCandidates, scoreCandidatesAux, toGolfBalls, roundQ]
  · simp
  · decide

/-- C2: whenever `GetBall` on a non-empty image returns at all (the adaptive
loop terminates), it returns `false` exactly when the out-list is left
empty; and on a `true` return the first ball carries quality rank 0
(ball_detector_facade.cpp:33-57 and 490-510). -/
theorem getBall_false_iff_empty (mode : SearchMode) (params : DetectionParams)
    (hough : ℚ → List GsCircle) (fuel : ℕ) (offset : ℤ × ℤ)
    (colorExists : Bool) (avgDiff stdDiff : ℕ → ℚ) (ret : Bool)
    (balls : List GolfBall)
    (h : getBall false mode params hough fuel offset colorExists avgDiff stdDiff
          = some (ret, balls)) :
    (ret = false ↔ balls = []) ∧
    (ret = true → ∃ b t, balls = b :: t ∧ b.quality_ranking = 0) := by
  unfold getBall at h
  rw [if_neg (by simp)] at h
  split at h
  · rw [Option.some_inj, Prod.mk.injEq] at h
    obtain ⟨hr, hb⟩ := h
    subst hr
    subst hb
    exact ⟨by simp, by simp⟩
  · split at h
    · exact absurd h (by simp)
    · split at h
      · rw [Option.some_inj, Prod.mk.injEq] at h
        obtain ⟨hr, hb⟩ := h
        subst hr
        subst hb
        exact ⟨by simp, by simp⟩
      · dsimp only at h
        split at h
        · rw [Option.some_inj, Prod.mk.injEq] at h
          obtain ⟨hr, hb⟩ := h
          subst hr
          subst hb
          exact ⟨by simp, by simp⟩
        · rename_i bs hfc
          rw [Option.some_inj, Prod.mk.injEq] at h
          obtain ⟨hr, hb⟩ := h
          subst hr
          subst hb
          obtain ⟨b, t, hbt, hq⟩ := filterAndScore_first_rank _ _ _ _ _ _ hfc
          exact ⟨by simp [hbt], fun _ => ⟨b, t, hbt, hq⟩⟩

theorem getBall_false_iff_empty_witness :
    ((true = false ↔ ([(⟨0, ⟨100, 100, 20⟩, 20⟩ : GolfBall)]) = []) ∧
     (true = true → ∃ b t,
        [(⟨0, ⟨100, 100, 20⟩, 20⟩ : GolfBall)] = b :: t ∧
        b.quality_ranking = 0)) :=
  getBall_false_iff_empty SearchMode.findPlacedBall c2Params c2Hough 1 (0, 0)
    false (fun _ => 0) (fun _ => 0) true [⟨0, ⟨100, 100, 20⟩, 20⟩] c2_eval

/-! ### The strobed colour-tolerance branch (ball_detector_facade.cpp:454-495) -/

theorem insertionSort_isEmpty_eq {α : Type} (r : α → α → Prop) [DecidableRel r]
    (l : List α) : (List.insertionSort r l).isEmpty = l.isEmpty := by
  have h := (List.perm_insertionSort r l).length_eq
  cases hs : List.insertionSort r l with
  | nil =>
    rw [hs] at h
    cases l with
    | nil => rfl
    | cons a t => simp at h
  | cons a t =>
    rw [hs] at h
    cases l with
    | nil => simp at h
    | cons b u => rfl

/-- In strobed mode with a known reference colour the scored list is left
unsorted, the colour filter keeps the candidates whose colour difference is
at most the float-narrowed `first + 50` (`foundCircleList.front()` plus the
tolerance, stored in a `float`, ball_detector_facade.cpp:464-476), the
survivors are sorted by found radius descending, and an empty survivor list
makes the call fail (lines 490-495). -/
theorem filterAndScore_strobed_eq (circles : List GsCircle)
    (avgDiff stdDiff : ℕ → ℚ) (f : CircleCandidateListElement)
    (rest : List CircleCandidateListElement)
    (h1 : circles.isEmpty = false)
    (h2 : scoreCandidatesAux true avgDiff stdDiff circles 0 = f :: rest) :
    filterAndScoreCandidates circles true SearchMode.strobed avgDiff stdDiff =
      (if ((f :: rest).filter (fun e =>
            e.calculated_color_difference ≤
              toFloat32 (f.calculated_color_difference + 50))).isEmpty then
        none
      else
        some (toGolfBalls (((f :: rest).filter (fun e =>
            e.calculated_color_difference ≤
              toFloat32 (f.calculated_color_difference + 50))).insertionSort
          (fun a b => b.found_radius ≤ a.found_radius)))) := by
  unfold filterAndScoreCandidates
  dsimp only
  rw [if_neg (show ¬circles.isEmpty = true by rw [h1]; simp)]
  rw [show (true || decide (SearchMode.strobed = SearchMode.putting)) = true from rfl]
  rw [h2]
  rw [if_neg (show ¬(f :: rest).isEmpty = true by simp)]
  rw [if_neg (show ¬(SearchMode.strobed ≠ SearchMode.strobed ∧ true = true) by simp)]
  rw [if_pos (show SearchMode.strobed = SearchMode.strobed ∧ true = true from ⟨rfl, rfl⟩)]
  simp only [List.headI_cons]
  rw [insertionSort_isEmpty_eq]

/-! ### Concrete strobed-mode inputs: two candidates whose first-listed
score (1 640 000) is strictly above the minimum score (1 600 000) -/

def c5Circles : List GsCircle := [⟨0, 0, 20⟩, ⟨50, 0, 20⟩]

def c5Avg : ℕ → ℚ := fun i => if i = 1 then 1200 else 0

def c5Std : ℕ → ℚ := fun _ => 0

/-- First scored candidate: `1200² + 0 + 200·10³ = 1 640 000`. -/
def c5E1 : CircleCandidateListElement := ⟨⟨0, 0, 20⟩, 1640000, 20⟩

/-- Second scored candidate: `0 + 0 + 200·20³ = 1 600 000`. -/
def c5E2 : CircleCandidateListElement := ⟨⟨50, 0, 20⟩, 1600000, 20⟩

theorem c5_scored_eval :
    scoreCandidatesAux true c5Avg c5Std c5Circles 0 = [c5E1, c5E2] := by
  norm_num [scoreCandidatesAux, c5Circles, c5Avg, c5Std, c5E1, c5E2, roundQ]

theorem toGolfBalls_length (l : List CircleCandidateListElement) :
    (toGolfBalls l).length = l.length := by
  simp [toGolfBalls]

/-- The strobed threshold `float(1 640 000 + 50)` is exact: `1 640 050` is
on the binary32 grid. -/
theorem c5_threshold_eval :
    toFloat32 (c5E1.calculated_color_difference + 50) = 1640050 := by
  rw [show c5E1.calculated_color_difference + 50 = 1640050 from by
    norm_num [c5E1]]
  exact toFloat32_1640050

/-- C5 (corrected): in strobed mode with a known colour the candidate filter
keeps the candidates whose score is at most the float-narrowed sum of the
FIRST scored candidate's score (not the minimum) and 50, and the survivors
are returned sorted by found radius descending — or the call fails when no
candidate survives (ball_detector_facade.cpp:454-495). -/
theorem strobed_filter_first_sorted (circles : List GsCircle)
    (avgDiff stdDiff : ℕ → ℚ) (f : CircleCandidateListElement)
    (rest : List CircleCandidateListElement)
    (h1 : circles.isEmpty = false)
    (h2 : scoreCandidatesAux true avgDiff stdDiff circles 0 = f :: rest) :
    ∃ sortedSurv : List CircleCandidateListElement,
      sortedSurv.Perm ((f :: rest).filter (fun e =>
        e.calculated_color_difference ≤
          toFloat32 (f.calculated_color_difference + 50))) ∧
      List.Pairwise (fun a b => b.found_radius ≤ a.found_radius) sortedSurv ∧
      filterAndScoreCandidates circles true SearchMode.strobed avgDiff stdDiff =
        (if sortedSurv.isEmpty then none else some (toGolfBalls sortedSurv)) := by
  refine ⟨_, List.perm_insertionSort _ _,
    List.sorted_insertionSort
      (fun a b : CircleCandidateListElement => b.found_radius ≤ a.found_radius) _,
    ?_⟩
  rw [filterAndScore_strobed_eq circles avgDiff stdDiff f rest h1 h2,
    insertionSort_isEmpty_eq]

theorem strobed_filter_first_sorted_witness :
    c5Circles.isEmpty = false ∧
    scoreCandidatesAux true c5Avg c5Std c5Circles 0 = [c5E1, c5E2] ∧
    (∃ sortedSurv : List CircleCandidateListElement,
      sortedSurv.Perm (([c5E1, c5E2] :
          List CircleCandidateListElement).filter (fun e =>
        e.calculated_color_difference ≤
          toFloat32 (c5E1.calculated_color_difference + 50))) ∧
      List.Pairwise (fun a b => b.found_radius ≤ a.found_radius) sortedSurv ∧
      filterAndScoreCandidates c5Circles true SearchMode.strobed c5Avg c5Std =
        (if sortedSurv.isEmpty then none else some (toGolfBalls sortedSurv))) :=
  ⟨rfl, c5_scored_eval,
    strobed_filter_first_sorted c5Circles c5Avg c5Std c5E1 [c5E2] rfl
      c5_scored_eval⟩

/-- The minimum score among the two scored candidates is 1 600 000 (held by
the second), only ONE candidate lies within the minimum + 50, yet the
strobed filter returns TWO balls: the threshold is anchored at the
first-listed score, not the best (minimum) score. -/
theorem strobed_filter_min_counterexample :
    (∀ e ∈ scoreCandidatesAux true c5Avg c5Std c5Circles 0,
        c5E2.calculated_color_difference ≤ e.calculated_color_difference) ∧
    c5E2 ∈ scoreCandidatesAux true c5Avg c5Std c5Circles 0 ∧
    ((scoreCandidatesAux true c5Avg c5Std c5Circles 0).filter (fun e =>
        e.calculated_color_difference ≤
          c5E2.calculated_color_difference + 50)).length = 1 ∧
    ∃ balls,
      filterAndScoreCandidates c5Circles true SearchMode.strobed c5Avg c5Std =
        some balls ∧ balls.length = 2 := by
  refine ⟨?_, ?_, ?_, ?_⟩
  · rw [c5_scored_eval]
    intro e he
    rcases List.mem_cons.mp he with rfl | he'
    · norm_num [c5E1, c5E2]
    · rcases List.mem_cons.mp he' with rfl | he''
      · norm_num [c5E2]
      · simp at he''
  · rw [c5_scored_eval]
    simp
  · rw [c5_scored_eval]
    simp only [List.filter_cons, List.filter_nil, decide_eq_true_eq]
    norm_num [c5E1, c5E2]
  · have heq := filterAndScore_strobed_eq c5Circles c5Avg c5Std c5E1 [c5E2] rfl
      c5_scored_eval
    have hfil : (([c5E1, c5E2] : List CircleCandidateListElement).filter
        (fun e => e.calculated_color_difference ≤
          toFloat32 (c5E1.calculated_color_difference + 50))) =
          [c5E1, c5E2] := by
      rw [c5_threshold_eval]
      simp only [List.filter_cons, List.filter_nil, decide_eq_true_eq]
      norm_num [c5E1, c5E2]
    rw [hfil] at heq
    rw [if_neg (show ¬([c5E1, c5E2] :
        List CircleCandidateListElement).isEmpty = true by simp)] at heq
    refine ⟨_, heq, ?_⟩
    rw [toGolfBalls_length,
      (List.perm_insertionSort (fun a b : CircleCandidateListElement =>
        b.found_radius ≤ a.found_radius) [c5E1, c5E2]).length_eq]
    rfl

/-! ### A reachable strobed input on which the front candidate fails its
own float-narrowed threshold: 17 Hough circles of radius 5 are rejected as
too small, so the first accepted candidate carries loop index 18 and score
`3² + 0 + 200·(10·18)³ = 1 166 400 009`. -/

def c10Tiny : GsCircle := ⟨0, 0, 5⟩

def c10Circles : List GsCircle :=
  [c10Tiny, c10Tiny, c10Tiny, c10Tiny, c10Tiny, c10Tiny, c10Tiny, c10Tiny,
   c10Tiny, c10Tiny, c10Tiny, c10Tiny, c10Tiny, c10Tiny, c10Tiny, c10Tiny,
   c10Tiny, ⟨0, 0, 20⟩]

def c10Avg : ℕ → ℚ := fun _ => 3

def c10Std : ℕ → ℚ := fun _ => 0

def c10E : CircleCandidateListElement := ⟨⟨0, 0, 20⟩, 1166400009, 20⟩

theorem c10_scored_eval :
    scoreCandidatesAux true c10Avg c10Std c10Circles 0 = [c10E] := by
  norm_num [scoreCandidatesAux, c10Circles, c10Tiny, c10Avg, c10Std, c10E,
    roundQ]

/-- C10 (corrected): the strobed colour filter compares every candidate
against the float-narrowed sum of the first-listed candidate's own score
and 50 (ball_detector_facade.cpp:464-476).  When that score is small enough
that binary32 rounding cannot consume the +50 margin — below `2^30` the
grid spacing is at most 64, so the narrowing moves the sum by at most 32 —
the first candidate survives its own threshold and the strobed call cannot
fail at the colour-tolerance step.  (For larger reachable scores the
guarantee breaks down; see the counterexample.) -/
theorem strobed_first_survives (circles : List GsCircle)
    (avgDiff stdDiff : ℕ → ℚ) (f : CircleCandidateListElement)
    (rest : List CircleCandidateListElement)
    (h1 : circles.isEmpty = false)
    (h2 : scoreCandidatesAux true avgDiff stdDiff circles 0 = f :: rest)
    (h3 : 0 ≤ f.calculated_color_difference)
    (h4 : f.calculated_color_difference + 50 < 2 ^ 30) :
    f ∈ (f :: rest).filter (fun e =>
        e.calculated_color_difference ≤
          toFloat32 (f.calculated_color_difference + 50)) ∧
    ∃ balls,
      filterAndScoreCandidates circles true SearchMode.strobed avgDiff stdDiff =
        some balls ∧ balls ≠ [] := by
  have herr := toFloat32_err (f.calculated_color_difference + 50)
    (by linarith) h4
  have hsur : f.calculated_color_difference ≤
      toFloat32 (f.calculated_color_difference + 50) := by
    have hab := abs_le.mp herr
    linarith [hab.1]
  have hp : decide (f.calculated_color_difference ≤
      toFloat32 (f.calculated_color_difference + 50)) = true := by
    rw [decide_eq_true_eq]
    exact hsur
  constructor
  · exact List.mem_filter.mpr ⟨List.mem_cons_self _ _, hp⟩
  · have heq := filterAndScore_strobed_eq circles avgDiff stdDiff f rest h1 h2
    rw [List.filter_cons_of_pos] at heq
    · split at heq
      · rename_i hcon
        simp at hcon
      · refine ⟨_, heq, ?_⟩
        intro hc
        have hlen := congrArg List.length hc
        rw [toGolfBalls_length,
          (List.perm_insertionSort (fun a b : CircleCandidateListElement =>
            b.found_radius ≤ a.found_radius) _).length_eq] at hlen
        simp at hlen
    · exact hp

theorem strobed_first_survives_witness :
    c5Circles.isEmpty = false ∧
    scoreCandidatesAux true c5Avg c5Std c5Circles 0 = [c5E1, c5E2] ∧
    (0:ℚ) ≤ c5E1.calculated_color_difference ∧
    c5E1.calculated_color_difference + 50 < 2 ^ 30 ∧
    (c5E1 ∈ ([c5E1, c5E2] : List CircleCandidateListElement).filter (fun e =>
        e.calculated_color_difference ≤
          toFloat32 (c5E1.calculated_color_difference + 50)) ∧
     ∃ balls,
       filterAndScoreCandidates c5Circles true SearchMode.strobed c5Avg c5Std =
         some balls ∧ balls ≠ []) :=
  ⟨rfl, c5_scored_eval, by norm_num [c5E1], by norm_num [c5E1],
    strobed_first_survives c5Circles c5Avg c5Std c5E1 [c5E2] rfl c5_scored_eval
      (by norm_num [c5E1]) (by norm_num [c5E1])⟩

/-- The scored list is the single candidate with score 1 166 400 009, but
the float threshold `float(1 166 400 059) = 1 166 400 000` lies BELOW the
candidate's own (double) score, the filter empties the list, and the
strobed call fails at the colour-tolerance step despite a non-empty scored
list. -/
theorem strobed_float_threshold_counterexample :
    scoreCandidatesAux true c10Avg c10Std c10Circles 0 = [c10E] ∧
    toFloat32 (c10E.calculated_color_difference + 50) <
      c10E.calculated_color_difference ∧
    filterAndScoreCandidates c10Circles true SearchMode.strobed c10Avg c10Std =
      none := by
  have hth : toFloat32 (c10E.calculated_color_difference + 50) = 1166400000 := by
    rw [show c10E.calculated_color_difference + 50 = 1166400059 from by
      norm_num [c10E]]
    exact toFloat32_1166400059
  refine ⟨c10_scored_eval, ?_, ?_⟩
  · rw [hth]
    norm_num [c10E]
  · rw [filterAndScore_strobed_eq c10Circles c10Avg c10Std c10E [] rfl
      c10_scored_eval]
    rw [show (([c10E] : List CircleCandidateListElement).filter (fun e =>
        e.calculated_color_difference ≤
          toFloat32 (c10E.calculated_color_difference + 50))) = [] from by
      rw [hth]
      simp only [List.filter_cons, List.filter_nil, decide_eq_true_eq]
      norm_num [c10E]]
    rfl

end GolfSim
